import Mathlib

/-!
Verification development for the artifact-resolution pipeline of the `csa`
repository (scripts/build_images_inventory.py, scripts/refine_artifact_groups.py,
scripts/consolidate_artifacts.py, scripts/date_extractor.py).

The Python sources are shallowly embedded as executable Lean definitions:
machine floats become exact rationals, Python dicts become insertion-ordered
association lists, and while-loops become fuel-indexed structural recursions
whose fuel provably suffices on every reachable input.  The similarity
primitive used by two of the scripts is the standard library
difflib.SequenceMatcher with isjunk=None; its matching-block algorithm is
embedded in full (scan, extension loops, autojunk handling) below.
-/

/-! ## Python string helpers -/

/-- Whitespace recognised by Python str.split and the regex class \s
(ASCII part: space, tab, newline, carriage return, vertical tab, form feed). -/
def pyIsSpace (c : Char) : Bool :=
  c = ' ' ∨ c = '\t' ∨ c = '\n' ∨ c = '\r' ∨ c = '\x0b' ∨ c = '\x0c'

/-- The newline character (the separator of Python text.split used by the
line-based date heuristics). -/
def chr10 : Char := '\n'

/-- Python str.split() with no separator: the maximal non-whitespace runs
of the text, in order (empties never produced).  cur accumulates the
current word reversed. -/
def pyWordsGo : List Char → List Char → List (List Char)
  | [], cur => if cur = [] then [] else [cur.reverse]
  | c :: rest, cur =>
    if pyIsSpace c then
      (if cur = [] then pyWordsGo rest [] else cur.reverse :: pyWordsGo rest [])
    else pyWordsGo rest (c :: cur)

/-- sep.join(pieces) at the character level. -/
def joinSep (sep : List Char) : List (List Char) → List Char
  | [] => []
  | [w] => w
  | w :: ws => w ++ sep ++ joinSep sep ws

/-- Python two-step normalisation used by both text_similarity functions:
t = ' '.join(text.split()), i.e. collapse all whitespace runs to single
spaces and trim the ends. -/
def normalizeWS (s : String) : String :=
  String.mk (joinSep ([' ']) (pyWordsGo s.toList []))

/-- Python text.split(chr(10)): split at every newline, keeping empty
pieces (cur accumulates the current line reversed). -/
def splitLinesGo : List Char → List Char → List (List Char)
  | [], cur => [cur.reverse]
  | c :: rest, cur =>
    if c = chr10 then cur.reverse :: splitLinesGo rest [] else splitLinesGo rest (c :: cur)

/-- The lines of a text (Python text.split(chr(10))). -/
def splitLines (s : List Char) : List (List Char) :=
  splitLinesGo s []

/-! ## difflib.SequenceMatcher (isjunk=None)

Embedding of CPython's difflib matching algorithm, specialised to the only
configuration the repository uses: SequenceMatcher(None, t1, t2) on strings.
With isjunk=None the junk set bjunk is empty, so the two junk-extension
while-loops of find_longest_match never execute and are omitted; the
autojunk "popular element" deletion (active when len(b) >= 200) is kept. -/

/-- Ascending list of indices j with b[j] = c (the b2j entry for c before
autojunk filtering). -/
def indicesOf (b : List Char) (c : Char) : List Nat :=
  (List.range b.length).filter (fun j => b.get? j == some c)

/-- The b2j mapping entry for character c: all indices of c in b, except that
when len(b) >= 200 a character occurring in more than len(b)/100 + 1
positions is "popular" and is deleted from b2j (difflib autojunk). -/
def b2jIndices (b : List Char) (c : Char) : List Nat :=
  let idxs := indicesOf b c
  if 200 ≤ b.length ∧ b.length / 100 + 1 < idxs.length then [] else idxs

/-- Lookup in the j2len association list, defaulting to 0 (dict.get(k, 0)). -/
def alookup (m : List (Nat × Nat)) (k : Nat) : Nat :=
  match m.find? (fun p => p.1 == k) with
  | some p => p.2
  | none => 0

/-- Chain length k = j2len.get(j - 1, 0) + 1 of difflib's scan.  In Python
j - 1 is -1 when j = 0 and dict.get(-1, 0) = 0, hence the explicit j = 0
case. -/
def chainLen (j2lenPrev : List (Nat × Nat)) (j : Nat) : Nat :=
  (if j = 0 then 0 else alookup j2lenPrev (j - 1)) + 1

/-- Inner loop of find_longest_match for one row i: walk the b2j indices js
(ascending), skipping j < blo and j >= bhi (difflib continue and break:
equivalent to a filter because js is ascending), chaining the block length
and tracking the first-longest block.  The new j2len row is accumulated in
acc (each j is distinct, so the accumulation order does not affect
lookups). -/
def flmRowGo (j2lenPrev : List (Nat × Nat)) (blo bhi i : Nat) :
    List Nat → (Nat × Nat × Nat) → List (Nat × Nat) → (Nat × Nat × Nat) × List (Nat × Nat)
  | [], best, acc => (best, acc)
  | j :: rest, best, acc =>
    if blo ≤ j ∧ j < bhi then
      flmRowGo j2lenPrev blo bhi i rest
        (if best.2.2 < chainLen j2lenPrev j then
          (i + 1 - chainLen j2lenPrev j, j + 1 - chainLen j2lenPrev j, chainLen j2lenPrev j)
        else best)
        ((j, chainLen j2lenPrev j) :: acc)
    else
      flmRowGo j2lenPrev blo bhi i rest best acc

/-- Outer loop of find_longest_match: fold over the rows i = alo..ahi-1,
threading the best block and the j2len row. -/
def flmScanGo (a b : List Char) (blo bhi : Nat) :
    List Nat → (Nat × Nat × Nat) → List (Nat × Nat) → Nat × Nat × Nat
  | [], best, _ => best
  | i :: rest, best, j2len =>
    let js := b2jIndices b (a.getD i ' ')
    let r := flmRowGo j2len blo bhi i js best []
    flmScanGo a b blo bhi rest r.1 r.2

/-- The dynamic-programming scan of find_longest_match, before the two
extension loops.  Starts from (besti, bestj, bestsize) = (alo, blo, 0). -/
def flmScan (a b : List Char) (alo ahi blo bhi : Nat) : Nat × Nat × Nat :=
  flmScanGo a b blo bhi (List.range' alo (ahi - alo)) (alo, blo, 0) []

/-- First extension while-loop of find_longest_match: extend the block
backwards while a[besti-1] == b[bestj-1].  Fuel-indexed structural
recursion; called with fuel = besti, which suffices because besti decreases
by one per iteration and the loop guard needs alo < besti.  The two index
bounds in the guard are always true at call sites (besti <= ahi <= len a)
and only make the function total. -/
def extendBack (a b : List Char) (alo blo : Nat) :
    Nat → Nat × Nat × Nat → Nat × Nat × Nat
  | 0, best => best
  | fuel + 1, (bi, bj, bs) =>
    if alo < bi ∧ blo < bj ∧ bi - 1 < a.length ∧ bj - 1 < b.length ∧
        a.getD (bi - 1) ' ' = b.getD (bj - 1) '!' then
      extendBack a b alo blo fuel (bi - 1, bj - 1, bs + 1)
    else (bi, bj, bs)

/-- Second extension while-loop of find_longest_match: extend the block
forwards while a[besti+bestsize] == b[bestj+bestsize].  Called with
fuel = ahi - (besti + bestsize), which suffices because bestsize increases
by one per iteration and the guard needs besti + bestsize < ahi. -/
def extendFwd (a b : List Char) (ahi bhi : Nat) :
    Nat → Nat × Nat × Nat → Nat × Nat × Nat
  | 0, best => best
  | fuel + 1, (bi, bj, bs) =>
    if bi + bs < ahi ∧ bj + bs < bhi ∧ bi + bs < a.length ∧ bj + bs < b.length ∧
        a.getD (bi + bs) ' ' = b.getD (bj + bs) '!' then
      extendFwd a b ahi bhi fuel (bi, bj, bs + 1)
    else (bi, bj, bs)

/-- difflib SequenceMatcher.find_longest_match(alo, ahi, blo, bhi) with
isjunk=None (so the junk-extension loops are no-ops and omitted). -/
def findLongestMatch (a b : List Char) (alo ahi blo bhi : Nat) : Nat × Nat × Nat :=
  let s := flmScan a b alo ahi blo bhi
  let s1 := extendBack a b alo blo s.1 s
  extendFwd a b ahi bhi (ahi - (s1.1 + s1.2.2)) s1

/-- Total size of all matching blocks found by SequenceMatcher's
get_matching_blocks queue on the window (alo, ahi, blo, bhi): the longest
block plus, recursively, the blocks of the two sub-windows around it (the
queue order does not affect the decomposition, so the LIFO queue is a plain
recursion here).  Fuel-indexed; fuel (ahi - alo) + (bhi - blo) + 1 is
proved sufficient in matchTotalF_fuel_irrel below. -/
def matchTotalF (a b : List Char) : Nat → Nat → Nat → Nat → Nat → Nat
  | 0, _, _, _, _ => 0
  | fuel + 1, alo, ahi, blo, bhi =>
    let m := findLongestMatch a b alo ahi blo bhi
    if m.2.2 = 0 then 0
    else
      m.2.2 +
        (if alo < m.1 ∧ blo < m.2.1 then matchTotalF a b fuel alo m.1 blo m.2.1 else 0) +
        (if m.1 + m.2.2 < ahi ∧ m.2.1 + m.2.2 < bhi then
          matchTotalF a b fuel (m.1 + m.2.2) ahi (m.2.1 + m.2.2) bhi else 0)

/-- Sum of matching-block sizes over the whole sequences, i.e. the value
"matches" in SequenceMatcher.ratio. -/
def matchTotal (a b : List Char) : Nat :=
  matchTotalF a b (a.length + b.length + 1) 0 a.length 0 b.length

/-- difflib _calculate_ratio: 2*matches/total, and 1.0 when both sequences
are empty. -/
def ratioQ (a b : List Char) : ℚ :=
  if a.length + b.length = 0 then 1
  else (2 * (matchTotal a b : ℚ)) / ((a.length : ℚ) + (b.length : ℚ))

/-- The block bounds maintained by every stage of findLongestMatch. -/
def BestInv (alo ahi blo bhi : Nat) (t : Nat × Nat × Nat) : Prop :=
  alo ≤ t.1 ∧ blo ≤ t.2.1 ∧ t.1 + t.2.2 ≤ ahi ∧ t.2.1 + t.2.2 ≤ bhi

/-- Invariant of j2len rows: every entry built while scanning row bound-1
has a positive chain length k with k + alo ≤ bound and k + blo ≤ key + 1. -/
def J2LenInv (alo blo bound : Nat) (m : List (Nat × Nat)) : Prop :=
  ∀ p ∈ m, 1 ≤ p.2 ∧ p.2 + alo ≤ bound ∧ p.2 + blo ≤ p.1 + 1
/-! ## refine_artifact_groups.py -/

namespace RefineArtifactGroups

/-- Threshold constants of refine_artifact_groups.py. -/
def HIGH_SIMILARITY : ℚ := 85/100

/-- Medium threshold: related content (same artifact, different pages). -/
def MEDIUM_SIMILARITY : ℚ := 40/100

/-- Low threshold: possibly related (review recommended). -/
def LOW_SIMILARITY : ℚ := 15/100

/-- text_similarity of refine_artifact_groups.py: returns 0 when either raw
text is empty, normalises whitespace, returns 0 again when either
normalised text is empty, else the SequenceMatcher ratio. -/
def text_similarity (text1 text2 : String) : ℚ :=
  if text1 = "" ∨ text2 = "" then 0
  else
    if normalizeWS text1 = "" ∨ normalizeWS text2 = "" then 0
    else ratioQ (normalizeWS text1).toList (normalizeWS text2).toList

end RefineArtifactGroups

/-! ## consolidate_artifacts.py -/

namespace ConsolidateArtifacts

/-- Above this similarity the consolidator treats two member texts as
duplicate content. -/
def SIMILARITY_THRESHOLD : ℚ := 85/100

/-- text_similarity of consolidate_artifacts.py: identical to the refine
version except that it does not re-check emptiness after whitespace
normalisation. -/
def text_similarity (text1 text2 : String) : ℚ :=
  if text1 = "" ∨ text2 = "" then 0
  else ratioQ (normalizeWS text1).toList (normalizeWS text2).toList

/-- Python truthiness of text.strip(): true iff the text has a
non-whitespace character. -/
def stripTruthy (s : String) : Bool :=
  s.toList.any (fun c => ¬ pyIsSpace c)

/-- State of the duplicate-culling loop of consolidate_group: the kept
unique texts and the indices (into the group's text list) they came from,
kept in sync position by position. -/
structure CullState where
  unique_texts : List String
  unique_indices : List Nat
deriving DecidableEq, Repr

/-- One iteration of the culling loop of consolidate_group for member i:
find the first kept index j whose text is more than SIMILARITY_THRESHOLD
similar to texts[i]; on a hit, replace the kept entry in place when
metas[i].confidence > metas[j].confidence (default 0) and stop comparing;
otherwise append texts[i] as a new unique text when it has non-whitespace
content. -/
def cullStep (texts : List String) (confs : List ℚ) (st : CullState) (i : Nat) : CullState :=
  match st.unique_indices.find?
      (fun j => decide (SIMILARITY_THRESHOLD < text_similarity (texts.getD i "") (texts.getD j ""))) with
  | some j =>
    if confs.getD j 0 < confs.getD i 0 then
      ⟨st.unique_texts.set (st.unique_indices.indexOf j) (texts.getD i ""),
        st.unique_indices.set (st.unique_indices.indexOf j) i⟩
    else st
  | none =>
    if stripTruthy (texts.getD i "") then
      ⟨st.unique_texts ++ [texts.getD i ""], st.unique_indices ++ [i]⟩
    else st

/-- The full duplicate-culling loop of consolidate_group over a group's
texts (in member order) and their OCR confidences. -/
def cullGroup (texts : List String) (confs : List ℚ) : CullState :=
  (List.range texts.length).foldl (cullStep texts confs) ⟨[], []⟩

/-- merged_text of consolidate_group: page-break-joined unique texts, or
the single unique text unmodified, or the empty string. -/
def merged_text (texts : List String) (confs : List ℚ) : String :=
  let u := (cullGroup texts confs).unique_texts
  if 1 < u.length then String.mk (joinSep ("\n\n---\n\n").toList (u.map String.toList))
  else u.headD ""

end ConsolidateArtifacts

/-! ## Shared helper: insertion-ordered grouping (Python defaultdict(list)) -/

/-- Append member i to the group keyed k, creating the group at the end on
first sight (Python dict insertion order). -/
def insertGroup (gs : List (String × List String)) (k : String) (i : String) :
    List (String × List String) :=
  match gs with
  | [] => [(k, [i])]
  | g :: rest => if g.1 = k then (g.1, g.2 ++ [i]) :: rest else g :: insertGroup rest k i

namespace RefineArtifactGroups

/-- find(x) of find_content_groups: dictionary-based union-find with path
compression.  A missing key is first bound to itself (appended in
insertion order); otherwise the parent chain is followed and compressed.
Fuel-indexed structural recursion: parent chains are acyclic and no longer
than the number of keys, so any fuel above the map size is exact. -/
def ufFind : Nat → List (String × String) → String → String × List (String × String)
  | 0, parent, x => (x, parent)
  | fuel + 1, parent, x =>
    match parent.lookup x with
    | none => (x, parent ++ [(x, x)])
    | some px =>
      if px = x then (x, parent)
      else
        let r := ufFind fuel parent px
        (r.1, r.2.map (fun p => if p.1 = x then (p.1, r.1) else p))

/-- union(x, y) of find_content_groups: px = find(x), py = find(y) (on the
state left by find(x)), then parent[px] = py when the roots differ. -/
def ufUnion (fuel : Nat) (parent : List (String × String)) (x y : String) :
    List (String × String) :=
  let fx := ufFind fuel parent x
  let fy := ufFind fuel fx.2 y
  if fx.1 = fy.1 then fy.2
  else fy.2.map (fun p => if p.1 = fx.1 then (p.1, fy.1) else p)

/-- find_content_groups: union images whose similarity is at or above the
threshold, then collect the connected components as root -> members (in key
insertion order), threading the path-compressed parent map through the
collection loop exactly as the Python generator does. -/
def find_content_groups (similarities : List (String × String × ℚ)) (threshold : ℚ) :
    List (String × List String) :=
  let parent := similarities.foldl
    (fun parent s =>
      if threshold ≤ s.2.2 then ufUnion (parent.length + 2) parent s.1 s.2.1 else parent)
    []
  (parent.foldl
    (fun (acc : List (String × List String) × List (String × String)) p =>
      let r := ufFind (acc.2.length + 1) acc.2 p.1
      (insertGroup acc.1 r.1 p.1, r.2))
    ([], parent)).1

/-- Python round(x, 3): nearest multiple of 1/1000.  Mathlib round resolves
ties upward while Python resolves them to even, but no value in this
development sits on a tie. -/
def round3 (x : ℚ) : ℚ := ((round (x * 1000) : ℤ) : ℚ) / 1000

/-- The similarities of calculate_group_confidence whose two image ids both
belong to the group. -/
def groupSims (group_ids : List String) (similarities : List (String × String × ℚ)) : List ℚ :=
  similarities.filterMap
    (fun s => if s.1 ∈ group_ids ∧ s.2.1 ∈ group_ids then some s.2.2 else none)

/-- calculate_group_confidence: 1.0 for singleton groups, 0.5 with no
similarity data, else round(0.7 * average + 0.3 * minimum, 3) over the
in-group similarities.  The all_texts parameter of the source is unused by
its body and is omitted here. -/
def calculate_group_confidence (group_ids : List String)
    (similarities : List (String × String × ℚ)) : ℚ :=
  if group_ids.length ≤ 1 then 1
  else
    match groupSims group_ids similarities with
    | [] => 1/2
    | x :: xs =>
      round3 (((x :: xs).sum / ((x :: xs).length : ℚ)) * (7/10) + (xs.foldl min x) * (3/10))

/-- The review condition of refine_artifact_groups.main:
confidence < 0.6 or more than 5 members. -/
def needsReviewFlag (confidence : ℚ) (size : Nat) : Bool :=
  decide (confidence < 6/10) || decide (5 < size)

/-- The review-queue reason of refine_artifact_groups.main. -/
def reviewReason (confidence : ℚ) : String :=
  if confidence < 6/10 then "low_confidence" else "large_group"

/-- The per-component decisions of refine_artifact_groups.main: for every
multi-member content group, its member list, group confidence, review flag
and review reason, in component order. -/
def refineMultiGroups (similarities : List (String × String × ℚ)) :
    List (List String × ℚ × Bool × String) :=
  ((find_content_groups similarities MEDIUM_SIMILARITY).filter
      (fun g => decide (1 < g.2.length))).map
    (fun g =>
      (g.2, calculate_group_confidence g.2 similarities,
        needsReviewFlag (calculate_group_confidence g.2 similarities) g.2.length,
        reviewReason (calculate_group_confidence g.2 similarities)))

end RefineArtifactGroups

/-! ## build_images_inventory.py -/

namespace BuildImagesInventory

/-- Zero-padded decimal used by the D%04d / S%04d group-id formats. -/
def pad4 (n : Nat) : String :=
  if n < 10 then "000" ++ toString n
  else if n < 100 then "00" ++ toString n
  else if n < 1000 then "0" ++ toString n
  else toString n

/-- One source record as it enters the duplicate/session loop of main():
its id, sha256 digest, relative path, and resolved capture timestamp
current_dt (EXIF creation or the file-mtime fallback), in seconds. -/
structure SrcRow where
  id : String
  sha256 : String
  relative_path : String
  ts : ℚ
deriving DecidableEq, Repr

/-- A record after the loop has populated its duplicate and session
fields.  session_num is the integer session counter of the source
(session_group_id is its S%04d rendering). -/
structure OutRow where
  id : String
  sha256 : String
  relative_path : String
  ts : ℚ
  duplicate_group_id : String
  duplicate_of : String
  session_num : Nat
  session_group_id : String
  session_index : Nat
  seconds_since_prev : Option ℚ
deriving DecidableEq, Repr

/-- The loop state of main(): the digest -> group-id and digest -> first
relative-path maps, the duplicate-group counter, the session counter, the
previous record's timestamp, the position counter within the current
session (the only entry of session_indices ever touched), and the emitted
rows. -/
structure InvState where
  digest_to_group : List (String × String)
  digest_first_path : List (String × String)
  group_counter : Nat
  session_id : Nat
  last_dt : Option ℚ
  session_count : Nat
  out : List OutRow
deriving Repr

/-- The initial loop state. -/
def initState : InvState :=
  ⟨[], [], 0, 0, none, 0, []⟩

/-- Session threshold of build_images_inventory.py, in seconds. -/
def session_threshold_sec : ℚ := 90

/-- The duplicate-grouping decision of one loop iteration: the record's
duplicate_group_id, its duplicate_of, and the updated digest maps and
counter (a new digest gets a fresh D%04d group and registers its path). -/
def invDup (s : InvState) (r : SrcRow) :
    String × String × List (String × String) × List (String × String) × Nat :=
  match s.digest_to_group.lookup r.sha256 with
  | some g =>
    (g, (s.digest_first_path.lookup r.sha256).getD "", s.digest_to_group,
      s.digest_first_path, s.group_counter)
  | none =>
    ("D" ++ pad4 (s.group_counter + 1), "",
      (r.sha256, "D" ++ pad4 (s.group_counter + 1)) :: s.digest_to_group,
      (r.sha256, r.relative_path) :: s.digest_first_path, s.group_counter + 1)

/-- A new session starts at the first record or when the gap since the
previous record strictly exceeds the threshold. -/
def invNewSession (s : InvState) (r : SrcRow) : Bool :=
  match s.last_dt with
  | none => true
  | some last => decide (session_threshold_sec < r.ts - last)

/-- The session counter after processing the record. -/
def invSessionId (s : InvState) (r : SrcRow) : Nat :=
  if invNewSession s r then s.session_id + 1 else s.session_id

/-- The record's 1-based position within its session. -/
def invSessionCount (s : InvState) (r : SrcRow) : Nat :=
  (if invNewSession s r then 0 else s.session_count) + 1

/-- The output row emitted for the record. -/
def invRow (s : InvState) (r : SrcRow) : OutRow :=
  { id := r.id
    sha256 := r.sha256
    relative_path := r.relative_path
    ts := r.ts
    duplicate_group_id := (invDup s r).1
    duplicate_of := (invDup s r).2.1
    session_num := invSessionId s r
    session_group_id := "S" ++ pad4 (invSessionId s r)
    session_index := invSessionCount s r
    seconds_since_prev := (s.last_dt).map (fun last => r.ts - last) }

/-- One iteration of the duplicate/session loop of main() for a record:
duplicate grouping by first-seen digest, then session grouping by time
proximity. -/
def invStep (s : InvState) (r : SrcRow) : InvState :=
  { digest_to_group := (invDup s r).2.2.1
    digest_first_path := (invDup s r).2.2.2.1
    group_counter := (invDup s r).2.2.2.2
    session_id := invSessionId s r
    last_dt := some r.ts
    session_count := invSessionCount s r
    out := s.out ++ [invRow s r] }

/-- The duplicate/session loop of main() over the timestamp-sorted record
list (the caller sorts; Python's sort is stable, so ties keep input
order). -/
def buildInventory (rows : List SrcRow) : List OutRow :=
  (rows.foldl invStep initState).out

/-- Placeholder row used as the default of list indexing in statements
about the produced inventory (never returned at in-range indices). -/
def dOut : OutRow :=
  ⟨"", "", "", 0, "", "", 0, "", 0, none⟩

end BuildImagesInventory

namespace ConsolidateArtifacts

/-- The inventory fields consumed by group_by_artifact: the assigned
artifact group (possibly empty) and the session index used as sort key
(int(row.get('session_index') or 0) resolved to a number). -/
structure InvRow where
  artifact_group_id : String
  session_index : Nat
deriving DecidableEq, Repr

/-- The grouping key of group_by_artifact: the row's artifact_group_id, or
the image id itself when the field is empty or missing (Python
row.get('artifact_group_id') or img_id). -/
def groupKey (img_id : String) (row : InvRow) : String :=
  if row.artifact_group_id = "" then img_id else row.artifact_group_id

/-- Code-point lexicographic strict order on character lists: the order
Python uses to compare the id strings. -/
def charListLT : List Char → List Char → Bool
  | [], [] => false
  | [], _ :: _ => true
  | _ :: _, [] => false
  | a :: as, b :: bs =>
    if a.toNat < b.toNat then true
    else if b.toNat < a.toNat then false
    else charListLT as bs

/-- Sort order of members within a group: by (session_index, id)
ascending. -/
def memberLE (inventory : List (String × InvRow)) (x y : String) : Bool :=
  let sx := ((inventory.lookup x).getD ⟨"", 0⟩).session_index
  let sy := ((inventory.lookup y).getD ⟨"", 0⟩).session_index
  decide (sx < sy) || (decide (sx = sy) && (decide (x = y) || charListLT x.toList y.toList))

/-- group_by_artifact: group image ids by their grouping key (insertion
order, defaultdict semantics), then sort each member list by
(session_index, id).  Member ids are pairwise distinct, so the sort key is
a strict total order and any sort realises Python's stable sorted(). -/
def group_by_artifact (inventory : List (String × InvRow)) : List (String × List String) :=
  ((inventory.foldl (fun gs p => insertGroup gs (groupKey p.1 p.2) p.1) []).map
    (fun g => (g.1, List.insertionSort (fun x y => memberLE inventory x y = true) g.2)))

end ConsolidateArtifacts
/-! ## date_extractor.py

The regular expressions of date_extractor.py are embedded as explicit
leftmost-match scanners over the character list of the text: a match
function per pattern is tried at every position in order (re.search), with
the original greedy/backtracking behaviour reproduced where a pattern has
optional parts.  Word characters and the \s class are the ASCII sets (all
texts concerned are ASCII). -/

/-- Decidable substring-as-sublist test (Python "sub in s" on the
relevant uppercased lines). -/
def isSubList (sub s : List Char) : Bool :=
  decide (sub <:+: s)

namespace DateExtractor

/-- Regex word character (ASCII): letter, digit or underscore. -/
def isWordChar (c : Char) : Bool :=
  c.isAlpha || c.isDigit || c = '_'

/-- Word boundary on the left of position p. -/
def boundaryBefore (s : List Char) (p : Nat) : Bool :=
  p = 0 || ¬ isWordChar (s.getD (p - 1) ' ')

/-- Word boundary between position p - 1 and p, right side of a match
ending at p: position p is past the end or holds a non-word character. -/
def boundaryAfterAt (s : List Char) (p : Nat) : Bool :=
  s.length ≤ p || ¬ isWordChar (s.getD p ' ')

/-- The decimal digit at position p, if any. -/
def digitAt (s : List Char) (p : Nat) : Option Nat :=
  match s.get? p with
  | some c => if c.isDigit then some (c.toNat - 48) else none
  | none => none

/-- The year group (1[89]\d{2}|20\d{2}) matched at position p: four digits
starting 18, 19 or 20. -/
def yearDigitsAt (s : List Char) (p : Nat) : Option Nat :=
  match digitAt s p, digitAt s (p + 1), digitAt s (p + 2), digitAt s (p + 3) with
  | some d1, some d2, some d3, some d4 =>
    if (d1 = 1 ∧ (d2 = 8 ∨ d2 = 9)) ∨ (d1 = 2 ∧ d2 = 0) then
      some (1000 * d1 + 100 * d2 + 10 * d3 + d4)
    else none
  | _, _, _, _ => none

/-- One match of the year pattern \b(1[89]\d{2}|20\d{2})\b at position p. -/
def yearMatchAt (s : List Char) (p : Nat) : Option Nat :=
  if boundaryBefore s p then
    match yearDigitsAt s p with
    | some y => if boundaryAfterAt s (p + 4) then some y else none
    | none => none
  else none

/-- All matches of the year pattern, by position (re.findall: boundaries
make distinct matching positions non-overlapping, so position order is
match order). -/
def findallYears (s : List Char) : List Nat :=
  (List.range s.length).filterMap (yearMatchAt s)

/-- extract_year_from_text: the earliest (prefer_early) or latest matched
year, None when the text is empty or nothing matches. -/
def extract_year_from_text (text : List Char) (prefer_early : Bool) : Option Nat :=
  if text = [] then none
  else
    match findallYears text with
    | [] => none
    | y :: ys => some (if prefer_early then ys.foldl Nat.min y else ys.foldl Nat.max y)

/-- One of the two dash characters accepted by extract_date_range. -/
def dashAt (s : List Char) (p : Nat) : Bool :=
  s.get? p == some '-' || s.get? p == some '–'

/-- All of s[q .. q+len) are digits. -/
def allDigits (s : List Char) (q len : Nat) : Bool :=
  (List.range len).all (fun k => (digitAt s (q + k)).isSome)

/-- Numeric value of the digit run s[q .. q+len). -/
def digitsVal (s : List Char) (q len : Nat) : Nat :=
  (List.range len).foldl (fun acc k => acc * 10 + (digitAt s (q + k)).getD 0) 0

/-- The greedy end group \d{2,4}\b of extract_date_range at position q:
try four digits, then three, then two, each with a word boundary after;
returns (value, length). -/
def endPartAt (s : List Char) (q : Nat) : Option (Nat × Nat) :=
  (if allDigits s q 4 && boundaryAfterAt s (q + 4) then some (digitsVal s q 4, 4) else none) <|>
  (if allDigits s q 3 && boundaryAfterAt s (q + 3) then some (digitsVal s q 3, 3) else none) <|>
  (if allDigits s q 2 && boundaryAfterAt s (q + 2) then some (digitsVal s q 2, 2) else none)

/-- One match of \b(1[89]\d{2})[-–](\d{2,4})\b at position p: the start
year (1800-1999 shape), and the end group with its length. -/
def rangeMatchAt (s : List Char) (p : Nat) : Option (Nat × Nat × Nat) :=
  if boundaryBefore s p then
    match digitAt s p, digitAt s (p + 1), digitAt s (p + 2), digitAt s (p + 3) with
    | some d1, some d2, some d3, some d4 =>
      if d1 = 1 ∧ (d2 = 8 ∨ d2 = 9) ∧ dashAt s (p + 4) then
        match endPartAt s (p + 5) with
        | some ep => some (1000 + 100 * d2 + 10 * d3 + d4, ep.1, ep.2)
        | none => none
      else none
    | _, _, _, _ => none
  else none

/-- extract_date_range: leftmost match of the range pattern; a two-digit
end part is completed with the start year's century. -/
def extract_date_range (text : String) : Option Nat × Option Nat :=
  if text = "" then (none, none)
  else
    match (List.range text.toList.length).findSome? (rangeMatchAt text.toList) with
    | none => (none, none)
    | some r =>
      (some r.1, some (if r.2.2 = 2 then (r.1 / 100) * 100 + r.2.1 else r.2.1))

/-- Case-insensitive literal match of kw at position p (re.IGNORECASE;
kw is stored lowercase). -/
def ciPrefixAt (s : List Char) (p : Nat) (kw : List Char) : Bool :=
  (List.range kw.length).all
    (fun k => (s.get? (p + k)).map Char.toLower == kw.get? k)

/-- Length of the whitespace run at position q (maximal munch of \s+;
the following pattern parts start with non-whitespace, so no backtracking
into the run is possible). -/
def spacesRun (s : List Char) (q : Nat) : Nat :=
  ((s.drop q).takeWhile pyIsSpace).length

/-- Tail of the keyword patterns: \s+(1[89]\d{2}|20\d{2})\b starting at
position q. -/
def yearAfterSpaces (s : List Char) (q : Nat) : Option Nat :=
  if 1 ≤ spacesRun s q then
    match yearDigitsAt s (q + spacesRun s q) with
    | some y => if boundaryAfterAt s (q + spacesRun s q + 4) then some y else none
    | none => none
  else none

/-- One match of \bkw\s+(year)\b at position p, case-insensitive. -/
def kwYearMatchAt (kw : List Char) (s : List Char) (p : Nat) : Option Nat :=
  if boundaryBefore s p && ciPrefixAt s p kw then
    yearAfterSpaces s (p + kw.length)
  else none

/-- Leftmost match of \bkw\s+(year)\b over the whole text. -/
def searchKwYear (kw : String) (s : List Char) : Option Nat :=
  (List.range s.length).findSome? (kwYearMatchAt kw.toList s)

/-- One match of the year-at-end pattern \b(year)\b(?=\s*$) at p. -/
def endYearMatchAt (s : List Char) (p : Nat) : Option Nat :=
  match yearMatchAt s p with
  | some y => if (s.drop (p + 4)).all pyIsSpace then some y else none
  | none => none

/-- The four high-confidence patterns of extract_year_from_title, tried in
order: dated/published/printed + year, then a year ending the string. -/
def highConfYear (s : List Char) : Option Nat :=
  (searchKwYear ("dated") s) <|> (searchKwYear ("published") s) <|>
  (searchKwYear ("printed") s) <|> ((List.range s.length).findSome? (endYearMatchAt s))

/-- The subject-date keywords of extract_year_from_title (alternation
order; no keyword is a prefix of another). -/
def SUBJECT_KEYWORDS : List String :=
  ["discussing", "about", "commemorating", "founded", "established"]

/-- One match of the subject-date pattern at p. -/
def subjectYearAt (s : List Char) (p : Nat) : Option Nat :=
  SUBJECT_KEYWORDS.findSome? (fun kw => kwYearMatchAt kw.toList s p)

/-- Leftmost match of the subject-date pattern. -/
def subjectSearch (s : List Char) : Option Nat :=
  (List.range s.length).findSome? (subjectYearAt s)

/-- extract_year_from_title: high-confidence explicit markers (0.8), then
a year range's start (0.7), then rejection of subject dates (None), then
any year at all (0.4). -/
def extract_year_from_title (title : String) (notes : String) : Option Nat × ℚ :=
  let combined := (title ++ " " ++ notes).toList
  match highConfYear combined with
  | some y => (some y, 8/10)
  | none =>
    match (extract_date_range (title ++ " " ++ notes)).1 with
    | some sy => (some sy, 7/10)
    | none =>
      match subjectSearch combined with
      | some _ => (none, 0)
      | none =>
        match extract_year_from_text combined false with
        | some y => (some y, 4/10)
        | none => (none, 0)

/-- Month names of the letter dateline pattern, in alternation order. -/
def MONTHS : List String :=
  ["january", "february", "march", "april", "may", "june", "july", "august",
   "september", "october", "november", "december"]

/-- Day digits (\d{1,2}, greedy) then ,? then \s+(year)\b, starting at
q1.  Tries the two-digit day first, then one digit; for each, the optional
comma branch is tried before the no-comma branch (a present comma makes
the no-comma branch fail at \s+ anyway). -/
def dayThenYear (s : List Char) (q1 : Nat) : Option Nat :=
  (if allDigits s q1 2 then
    ((if s.get? (q1 + 2) == some ',' then yearAfterSpaces s (q1 + 3) else none) <|>
      yearAfterSpaces s (q1 + 2))
  else none) <|>
  (if allDigits s q1 1 then
    ((if s.get? (q1 + 1) == some ',' then yearAfterSpaces s (q1 + 2) else none) <|>
      yearAfterSpaces s (q1 + 1))
  else none)

/-- One match of the letter dateline pattern
\b(?:Month)\s+\d{1,2},?\s+(year)\b at position p. -/
def letterMatchAt (s : List Char) (p : Nat) : Option Nat :=
  MONTHS.findSome?
    (fun mo =>
      if boundaryBefore s p && ciPrefixAt s p mo.toList then
        (if 1 ≤ spacesRun s (p + mo.length) then
          dayThenYear s (p + mo.length + spacesRun s (p + mo.length))
        else none)
      else none)

/-- parse_letter_date: leftmost dateline match. -/
def parse_letter_date (ocr_text : String) : Option Nat :=
  if ocr_text = "" then none
  else (List.range ocr_text.toList.length).findSome? (letterMatchAt ocr_text.toList)

/-- Uppercased character list of a line (str.upper, ASCII). -/
def upperList (line : List Char) : List Char :=
  line.map Char.toUpper

/-- parse_meeting_date: in the first 20 lines, the first line containing
ANNUAL MEETING or HELD AT that also contains a year (latest year of that
line). -/
def parse_meeting_date (ocr_text : String) : Option Nat :=
  if ocr_text = "" then none
  else
    ((splitLines ocr_text.toList).take 20).findSome?
      (fun line =>
        if isSubList ("ANNUAL MEETING").toList (upperList line) ∨
            isSubList ("HELD AT").toList (upperList line) then
          extract_year_from_text line false
        else none)

/-- Publication-imprint keywords (matched case-insensitively as
substrings, no word boundaries in the source pattern). -/
def PUB_KEYWORDS : List String :=
  ["PRINTED", "PUBLISHED", "SYRACUSE", "ALBANY", "NEW YORK"]

/-- The last n elements of a list (Python l[-n:]). -/
def lastN {α : Type} (n : Nat) (l : List α) : List α :=
  l.drop (l.length - n)

/-- parse_publication_imprint: in the last 30 lines, the first line
containing a publication keyword that also contains a year. -/
def parse_publication_imprint (ocr_text : String) : Option Nat :=
  if ocr_text = "" then none
  else
    (lastN 30 (splitLines ocr_text.toList)).findSome?
      (fun line =>
        if PUB_KEYWORDS.any (fun kw => isSubList kw.toList (upperList line)) then
          extract_year_from_text line false
        else none)

/-- parse_title_page_date: publication imprint, then (for texts mentioning
PROCEEDINGS or MEETING) the meeting date, then the latest year of the
first 15 lines. -/
def parse_title_page_date (ocr_text : String) (item_type : String) : Option Nat :=
  if ocr_text = "" ∨ (item_type ≠ "cover_or_title_page" ∧ item_type ≠ "pamphlet_or_brochure") then
    none
  else
    match parse_publication_imprint ocr_text with
    | some y => some y
    | none =>
      match
        (if isSubList ("PROCEEDINGS").toList (upperList ocr_text.toList) ∨
            isSubList ("MEETING").toList (upperList ocr_text.toList) then
          parse_meeting_date ocr_text
        else none) with
      | some y => some y
      | none =>
        extract_year_from_text (joinSep ([chr10]) ((splitLines ocr_text.toList).take 15)) false

/-- is_modern_item_type: items that are photos of displays or archival
notecards are modern documentation. -/
def is_modern_item_type (item_type : String) : Bool :=
  item_type = "photograph_of_display" || item_type = "notecard"

/-- parse_ocr_for_document_date: type-specific extraction with a
confidence per heuristic, followed by the [1800, 2025] sanity clamp. -/
def parse_ocr_for_document_date (ocr_text : String) (item_type : String)
    (_item_title : String) : Option Nat × ℚ :=
  if ocr_text = "" then (none, 0)
  else if is_modern_item_type item_type then (none, 0)
  else
    match
      (if item_type = "letter" then
        match parse_letter_date ocr_text with
        | some y => (some y, (9 : ℚ)/10)
        | none => (none, 0)
      else if item_type = "meeting_minutes" ∨ item_type = "report" then
        match parse_meeting_date ocr_text with
        | some y => (some y, (85 : ℚ)/100)
        | none => (none, 0)
      else if item_type = "cover_or_title_page" ∨ item_type = "pamphlet_or_brochure" then
        match parse_title_page_date ocr_text item_type with
        | some y => (some y, (8 : ℚ)/10)
        | none => (none, 0)
      else if item_type = "document_page" ∨ item_type = "form" ∨
          item_type = "ledger_or_register" then
        match parse_meeting_date ocr_text with
        | some y => (some y, (7 : ℚ)/10)
        | none =>
          match parse_publication_imprint ocr_text with
          | some y => (some y, (6 : ℚ)/10)
          | none => (none, 0)
      else (none, 0) : Option Nat × ℚ) with
    | (some y, confidence) => if y < 1800 ∨ 2025 < y then (none, 0) else (some y, confidence)
    | (none, confidence) => (none, confidence)

/-- The inventory fields consumed by get_best_date. -/
structure InventoryRow where
  item_type : String
  item_title : String
  notes : String
deriving DecidableEq, Repr

/-- get_best_date: priority arbitration between the OCR-derived and the
title/notes-derived year. -/
def get_best_date (inventory_row : InventoryRow) (ocr_text : Option String)
    (ocr_confidence : ℚ) : Option Nat × String × ℚ :=
  if is_modern_item_type inventory_row.item_type then
    (none, "undated_modern_documentation", 0)
  else
    let oc := parse_ocr_for_document_date (ocr_text.getD "") inventory_row.item_type
      inventory_row.item_title
    let tl := extract_year_from_title inventory_row.item_title inventory_row.notes
    if oc.1.isSome ∧ 7/10 ≤ oc.2 ∧ 7/10 ≤ ocr_confidence then
      (oc.1, "ocr_text", oc.2)
    else if tl.1.isSome ∧ 7/10 ≤ tl.2 then
      (tl.1, "title_explicit", tl.2)
    else if oc.1.isSome ∧ 1/2 ≤ oc.2 then
      (oc.1, if oc.2 < 7/10 ∨ ocr_confidence < 7/10 then "ocr_text_uncertain" else "ocr_text", oc.2)
    else if tl.1.isSome ∧ 4/10 ≤ tl.2 then
      (tl.1, "title_inferred", tl.2)
    else
      (none, "undated", 0)

end DateExtractor

/-! ### Window invariants of the matcher

The block returned by findLongestMatch lies inside the requested window:
alo ≤ besti, blo ≤ bestj, besti + bestsize ≤ ahi, bestj + bestsize ≤ bhi.
These bounds justify the fuel bounds of matchTotalF and give
matches ≤ min (len a) (len b), hence ratio ≤ 1. -/

theorem bestInv_mk {alo ahi blo bhi x y z : Nat} :
    BestInv alo ahi blo bhi (x, y, z) ↔ alo ≤ x ∧ blo ≤ y ∧ x + z ≤ ahi ∧ y + z ≤ bhi :=
  Iff.rfl

theorem chainLen_bounds {alo blo i j : Nat} {m : List (Nat × Nat)}
    (hm : J2LenInv alo blo i m) (hi : alo ≤ i) (hj : blo ≤ j) :
    1 ≤ chainLen m j ∧ chainLen m j + alo ≤ i + 1 ∧ chainLen m j + blo ≤ j + 1 := by
  unfold chainLen
  split
  · rename_i hj0
    subst hj0
    have hblo : blo = 0 := Nat.le_zero.mp hj
    omega
  · rename_i hj0
    unfold alookup
    split
    · rename_i p hp
      have hmem := List.mem_of_find?_eq_some hp
      have hkey := List.find?_some hp
      simp only [beq_iff_eq] at hkey
      obtain ⟨h1, h2, h3⟩ := hm p hmem
      omega
    · omega

theorem flmRowGo_inv {alo ahi blo bhi i : Nat} {m : List (Nat × Nat)}
    (hi : alo ≤ i) (hia : i < ahi) (hm : J2LenInv alo blo i m) :
    ∀ (js : List Nat) (best : Nat × Nat × Nat) (acc : List (Nat × Nat)),
      BestInv alo ahi blo bhi best →
      J2LenInv alo blo (i + 1) acc →
      BestInv alo ahi blo bhi (flmRowGo m blo bhi i js best acc).1 ∧
        J2LenInv alo blo (i + 1) (flmRowGo m blo bhi i js best acc).2 := by
  intro js
  induction js with
  | nil => intro best acc hb hacc; exact ⟨hb, hacc⟩
  | cons j rest ih =>
    intro best acc hb hacc
    rw [flmRowGo]
    split
    · rename_i hj
      obtain ⟨hjlo, hjhi⟩ := hj
      obtain ⟨hc1, hc2, hc3⟩ := chainLen_bounds hm hi hjlo
      refine ih _ _ ?_ ?_
      · split
        · exact bestInv_mk.mpr ⟨by omega, by omega, by omega, by omega⟩
        · exact hb
      · intro p hp
        rcases List.mem_cons.mp hp with h | h
        · subst h; exact ⟨hc1, hc2, hc3⟩
        · exact hacc p h
    · exact ih _ _ hb hacc

theorem flmScanGo_inv {a b : List Char} {alo ahi blo bhi : Nat} :
    ∀ (n i : Nat) (best : Nat × Nat × Nat) (m : List (Nat × Nat)),
      alo ≤ i → i + n ≤ ahi →
      BestInv alo ahi blo bhi best →
      J2LenInv alo blo i m →
      BestInv alo ahi blo bhi (flmScanGo a b blo bhi (List.range' i n) best m) := by
  intro n
  induction n with
  | zero => intro i best m _ _ hb _; simpa [flmScanGo] using hb
  | succ n ih =>
    intro i best m hi hn hb hm
    rw [List.range'_succ, flmScanGo]
    have hia : i < ahi := by omega
    have h := flmRowGo_inv hi hia hm (b2jIndices b (a.getD i ' ')) best [] hb
      (by intro p hp; simp at hp)
    exact ih (i + 1) _ _ (by omega) (by omega) h.1 h.2

theorem flmScan_inv {a b : List Char} {alo ahi blo bhi : Nat}
    (h1 : alo ≤ ahi) (h2 : blo ≤ bhi) :
    BestInv alo ahi blo bhi (flmScan a b alo ahi blo bhi) := by
  unfold flmScan
  refine flmScanGo_inv (ahi - alo) alo _ [] le_rfl (by omega) ?_ ?_
  · exact bestInv_mk.mpr ⟨le_rfl, le_rfl, by omega, by omega⟩
  · intro p hp; simp at hp

theorem extendBack_inv {a b : List Char} {alo ahi blo bhi : Nat} :
    ∀ (fuel : Nat) (best : Nat × Nat × Nat),
      BestInv alo ahi blo bhi best →
      BestInv alo ahi blo bhi (extendBack a b alo blo fuel best) := by
  intro fuel
  induction fuel with
  | zero => intro best hb; exact hb
  | succ fuel ih =>
    intro best hb
    obtain ⟨bi, bj, bs⟩ := best
    rw [extendBack]
    rw [bestInv_mk] at hb
    split
    · rename_i hc
      exact ih _ (bestInv_mk.mpr ⟨by omega, by omega, by omega, by omega⟩)
    · exact bestInv_mk.mpr hb

theorem extendFwd_inv {a b : List Char} {alo ahi blo bhi : Nat} :
    ∀ (fuel : Nat) (best : Nat × Nat × Nat),
      BestInv alo ahi blo bhi best →
      BestInv alo ahi blo bhi (extendFwd a b ahi bhi fuel best) := by
  intro fuel
  induction fuel with
  | zero => intro best hb; exact hb
  | succ fuel ih =>
    intro best hb
    obtain ⟨bi, bj, bs⟩ := best
    rw [extendFwd]
    rw [bestInv_mk] at hb
    split
    · rename_i hc
      exact ih _ (bestInv_mk.mpr ⟨by omega, by omega, by omega, by omega⟩)
    · exact bestInv_mk.mpr hb

theorem findLongestMatch_inv {a b : List Char} {alo ahi blo bhi : Nat}
    (h1 : alo ≤ ahi) (h2 : blo ≤ bhi) :
    BestInv alo ahi blo bhi (findLongestMatch a b alo ahi blo bhi) := by
  unfold findLongestMatch
  exact extendFwd_inv _ _ (extendBack_inv _ _ (flmScan_inv h1 h2))

/-- The total matching size is bounded by the window width on the a side and
on the b side, for any fuel. -/
theorem matchTotalF_le {a b : List Char} :
    ∀ (fuel alo ahi blo bhi : Nat), alo ≤ ahi → blo ≤ bhi →
      matchTotalF a b fuel alo ahi blo bhi + alo ≤ ahi ∧
        matchTotalF a b fuel alo ahi blo bhi + blo ≤ bhi := by
  intro fuel
  induction fuel with
  | zero => intro alo ahi blo bhi h1 h2; rw [matchTotalF]; omega
  | succ fuel ih =>
    intro alo ahi blo bhi h1 h2
    rw [matchTotalF]
    obtain ⟨hb1, hb2, hb3, hb4⟩ := findLongestMatch_inv (a := a) (b := b) h1 h2
    split
    · omega
    · rename_i hk
      have hL : (if alo < (findLongestMatch a b alo ahi blo bhi).1 ∧
            blo < (findLongestMatch a b alo ahi blo bhi).2.1 then
            matchTotalF a b fuel alo (findLongestMatch a b alo ahi blo bhi).1 blo
              (findLongestMatch a b alo ahi blo bhi).2.1 else 0) + alo ≤
            (findLongestMatch a b alo ahi blo bhi).1 ∧
          (if alo < (findLongestMatch a b alo ahi blo bhi).1 ∧
            blo < (findLongestMatch a b alo ahi blo bhi).2.1 then
            matchTotalF a b fuel alo (findLongestMatch a b alo ahi blo bhi).1 blo
              (findLongestMatch a b alo ahi blo bhi).2.1 else 0) + blo ≤
            (findLongestMatch a b alo ahi blo bhi).2.1 := by
        split
        · rename_i hg; exact ih alo _ blo _ (by omega) (by omega)
        · omega
      have hR : (if (findLongestMatch a b alo ahi blo bhi).1 +
            (findLongestMatch a b alo ahi blo bhi).2.2 < ahi ∧
            (findLongestMatch a b alo ahi blo bhi).2.1 +
            (findLongestMatch a b alo ahi blo bhi).2.2 < bhi then
            matchTotalF a b fuel
              ((findLongestMatch a b alo ahi blo bhi).1 +
                (findLongestMatch a b alo ahi blo bhi).2.2) ahi
              ((findLongestMatch a b alo ahi blo bhi).2.1 +
                (findLongestMatch a b alo ahi blo bhi).2.2) bhi else 0) +
            ((findLongestMatch a b alo ahi blo bhi).1 +
              (findLongestMatch a b alo ahi blo bhi).2.2) ≤ ahi ∧
          (if (findLongestMatch a b alo ahi blo bhi).1 +
            (findLongestMatch a b alo ahi blo bhi).2.2 < ahi ∧
            (findLongestMatch a b alo ahi blo bhi).2.1 +
            (findLongestMatch a b alo ahi blo bhi).2.2 < bhi then
            matchTotalF a b fuel
              ((findLongestMatch a b alo ahi blo bhi).1 +
                (findLongestMatch a b alo ahi blo bhi).2.2) ahi
              ((findLongestMatch a b alo ahi blo bhi).2.1 +
                (findLongestMatch a b alo ahi blo bhi).2.2) bhi else 0) +
            ((findLongestMatch a b alo ahi blo bhi).2.1 +
              (findLongestMatch a b alo ahi blo bhi).2.2) ≤ bhi := by
        split
        · rename_i hg; exact ih _ _ _ _ (by omega) (by omega)
        · omega
      omega

/-- With enough fuel, matchTotalF no longer depends on the fuel: the
recursion depth is bounded by the total window width. -/
theorem matchTotalF_fuel_irrel {a b : List Char} :
    ∀ (f g alo ahi blo bhi : Nat), alo ≤ ahi → blo ≤ bhi →
      (ahi - alo) + (bhi - blo) < f → (ahi - alo) + (bhi - blo) < g →
      matchTotalF a b f alo ahi blo bhi = matchTotalF a b g alo ahi blo bhi := by
  intro f
  induction f with
  | zero => intro g alo ahi blo bhi _ _ hf _; omega
  | succ f ih =>
    intro g alo ahi blo bhi h1 h2 hf hg
    match g, hg with
    | g + 1, hg =>
      rw [matchTotalF, matchTotalF]
      obtain ⟨hb1, hb2, hb3, hb4⟩ := findLongestMatch_inv (a := a) (b := b) h1 h2
      split
      · rfl
      · rename_i hk
        have hL : (if alo < (findLongestMatch a b alo ahi blo bhi).1 ∧
              blo < (findLongestMatch a b alo ahi blo bhi).2.1 then
              matchTotalF a b f alo (findLongestMatch a b alo ahi blo bhi).1 blo
                (findLongestMatch a b alo ahi blo bhi).2.1 else 0) =
            (if alo < (findLongestMatch a b alo ahi blo bhi).1 ∧
              blo < (findLongestMatch a b alo ahi blo bhi).2.1 then
              matchTotalF a b g alo (findLongestMatch a b alo ahi blo bhi).1 blo
                (findLongestMatch a b alo ahi blo bhi).2.1 else 0) := by
          split
          · rename_i hgd
            exact ih g alo _ blo _ (by omega) (by omega) (by omega) (by omega)
          · rfl
        have hR : (if (findLongestMatch a b alo ahi blo bhi).1 +
              (findLongestMatch a b alo ahi blo bhi).2.2 < ahi ∧
              (findLongestMatch a b alo ahi blo bhi).2.1 +
              (findLongestMatch a b alo ahi blo bhi).2.2 < bhi then
              matchTotalF a b f
                ((findLongestMatch a b alo ahi blo bhi).1 +
                  (findLongestMatch a b alo ahi blo bhi).2.2) ahi
                ((findLongestMatch a b alo ahi blo bhi).2.1 +
                  (findLongestMatch a b alo ahi blo bhi).2.2) bhi else 0) =
            (if (findLongestMatch a b alo ahi blo bhi).1 +
              (findLongestMatch a b alo ahi blo bhi).2.2 < ahi ∧
              (findLongestMatch a b alo ahi blo bhi).2.1 +
              (findLongestMatch a b alo ahi blo bhi).2.2 < bhi then
              matchTotalF a b g
                ((findLongestMatch a b alo ahi blo bhi).1 +
                  (findLongestMatch a b alo ahi blo bhi).2.2) ahi
                ((findLongestMatch a b alo ahi blo bhi).2.1 +
                  (findLongestMatch a b alo ahi blo bhi).2.2) bhi else 0) := by
          split
          · rename_i hgd
            exact ih g _ _ _ _ (by omega) (by omega) (by omega) (by omega)
          · rfl
        rw [hL, hR]

/-- Matches never exceed the length of either sequence. -/
theorem matchTotal_le_left (a b : List Char) : matchTotal a b ≤ a.length := by
  have h := (matchTotalF_le (a := a) (b := b)
    (a.length + b.length + 1) 0 a.length 0 b.length (by omega) (by omega)).1
  unfold matchTotal
  omega

/-- Matches never exceed the length of either sequence (b side). -/
theorem matchTotal_le_right (a b : List Char) : matchTotal a b ≤ b.length := by
  have h := (matchTotalF_le (a := a) (b := b)
    (a.length + b.length + 1) 0 a.length 0 b.length (by omega) (by omega)).2
  unfold matchTotal
  omega

/-- The SequenceMatcher ratio is between 0 and 1. -/
theorem ratioQ_bounds (a b : List Char) : 0 ≤ ratioQ a b ∧ ratioQ a b ≤ 1 := by
  unfold ratioQ
  split
  · norm_num
  · rename_i h
    have hpos : (0 : ℚ) < (a.length : ℚ) + (b.length : ℚ) := by
      have : 0 < a.length + b.length := Nat.pos_of_ne_zero h
      exact_mod_cast Nat.cast_pos.mpr this
    constructor
    · positivity
    · rw [div_le_one hpos]
      have h1 := matchTotal_le_left a b
      have h2 := matchTotal_le_right a b
      have : (matchTotal a b : ℚ) ≤ (a.length : ℚ) := by exact_mod_cast h1
      have : (matchTotal a b : ℚ) ≤ (b.length : ℚ) := by exact_mod_cast h2
      linarith

/-- A sequence with an empty counterpart has no matches. -/
theorem matchTotal_nil_left (l : List Char) : matchTotal [] l = 0 :=
  Nat.le_zero.mp (by simpa using matchTotal_le_left [] l)

/-- A sequence with an empty counterpart has no matches (b side). -/
theorem matchTotal_nil_right (l : List Char) : matchTotal l [] = 0 :=
  Nat.le_zero.mp (by simpa using matchTotal_le_right l [])

/-! ## Supporting lemmas for the similarity functions -/

theorem stringToList_eq_nil {s : String} : s.toList = [] ↔ s = "" := by
  constructor
  · intro h
    exact String.ext h
  · intro h
    subst h
    rfl

theorem ratioQ_nil_left {l : List Char} (h : l ≠ []) : ratioQ [] l = 0 := by
  unfold ratioQ
  split
  · rename_i h0
    simp at h0
    exact absurd h0 h
  · simp [matchTotal_nil_left]

theorem ratioQ_nil_right {l : List Char} (h : l ≠ []) : ratioQ l [] = 0 := by
  unfold ratioQ
  split
  · rename_i h0
    simp at h0
    exact absurd h0 h
  · simp [matchTotal_nil_right]

section ConcreteEvaluation

/- Batteries marks the rational field operations irreducible; concrete
evaluations by the decide tactic need them semireducible (the kernel
unfolds them either way). -/
attribute [local semireducible] Rat.mul Rat.inv Rat.add Rat.sub Rat.ofScientific

/-! ## Claim C5 -/

/-- Claim C5, counterexample: text_similarity is not symmetric.  The
underlying difflib ratio depends on the argument order: with t1 = "ab" and
t2 = "bacb" the matcher finds the two blocks "a" and "b" (total 2, ratio
2/3), while in the reversed order only the single block "b" of the longest
match survives (total 1, ratio 1/3). -/
theorem C5_counterexample :
    RefineArtifactGroups.text_similarity ("ab") ("bacb") ≠
      RefineArtifactGroups.text_similarity ("bacb") ("ab") := by
  decide

/-- Claim C5, amended: text_similarity always lies in [0, 1] and is 0
whenever either argument is empty (a record with missing OCR text is
looked up as the empty string); symmetry, however, does not hold in
general, as the counterexample shows. -/
theorem C5_amended (t1 t2 : String) :
    0 ≤ RefineArtifactGroups.text_similarity t1 t2 ∧
      RefineArtifactGroups.text_similarity t1 t2 ≤ 1 ∧
      ((t1 = "" ∨ t2 = "") → RefineArtifactGroups.text_similarity t1 t2 = 0) := by
  unfold RefineArtifactGroups.text_similarity
  split_ifs with h1 h2
  · exact ⟨le_refl 0, by norm_num, fun _ => rfl⟩
  · exact ⟨le_refl 0, by norm_num, fun _ => rfl⟩
  · refine ⟨(ratioQ_bounds _ _).1, (ratioQ_bounds _ _).2, ?_⟩
    intro h
    exact absurd h h1

/-- Witness for C5_amended at a concrete input with an empty first text. -/
theorem C5_amended_witness :
    0 ≤ RefineArtifactGroups.text_similarity ("") ("x") ∧
      RefineArtifactGroups.text_similarity ("") ("x") ≤ 1 ∧
      ((("" : String) = "" ∨ ("x" : String) = "") →
        RefineArtifactGroups.text_similarity ("") ("x") = 0) :=
  C5_amended ("") ("x")

/-! ## Claim C9 -/

/-- Claim C9, counterexample: the two text_similarity implementations are
not extensionally equal.  On two nonempty whitespace-only texts the
consolidator version normalises both to "" and difflib reports ratio 1.0
for two empty sequences, while the refine version returns 0 from its
post-normalisation emptiness check. -/
theorem C9_counterexample :
    ConsolidateArtifacts.text_similarity (" ") ("\t") = 1 ∧
      RefineArtifactGroups.text_similarity (" ") ("\t") = 0 := by
  decide

/-- Claim C9, amended: the two implementations agree on every pair of
texts except when both texts are nonempty but whitespace-only; there the
consolidator returns 1 and the refine version 0. -/
theorem C9_amended (t1 t2 : String)
    (h : ¬ (t1 ≠ "" ∧ t2 ≠ "" ∧ normalizeWS t1 = "" ∧ normalizeWS t2 = "")) :
    ConsolidateArtifacts.text_similarity t1 t2 = RefineArtifactGroups.text_similarity t1 t2 := by
  unfold ConsolidateArtifacts.text_similarity RefineArtifactGroups.text_similarity
  split_ifs with h1 h2
  · rfl
  · push_neg at h1
    rcases h2 with hn1 | hn2
    · have hn2' : normalizeWS t2 ≠ "" := by
        intro hc
        exact h ⟨h1.1, h1.2, hn1, hc⟩
      rw [hn1]
      refine ratioQ_nil_left ?_
      intro hc
      exact hn2' (stringToList_eq_nil.mp hc)
    · have hn1' : normalizeWS t1 ≠ "" := by
        intro hc
        exact h ⟨h1.1, h1.2, hc, hn2⟩
      rw [hn2]
      refine ratioQ_nil_right ?_
      intro hc
      exact hn1' (stringToList_eq_nil.mp hc)
  · rfl

/-- Witness for C9_amended at a concrete pair of ordinary texts. -/
theorem C9_amended_witness :
    ConsolidateArtifacts.text_similarity ("abc") ("abd") =
      RefineArtifactGroups.text_similarity ("abc") ("abd") :=
  C9_amended ("abc") ("abd") (by decide)


/-! ## Claim C3 -/

/-- An element written into a list position is a member of the result. -/
theorem mem_set_self {α : Type} (a : α) : ∀ (l : List α) (n : Nat), n < l.length →
    a ∈ l.set n a := by
  intro l
  induction l with
  | nil => intro n h; simp at h
  | cons x t ih =>
    intro n h
    cases n with
    | zero => exact List.mem_cons_self _ _
    | succ n => exact List.mem_cons_of_mem x (ih n (by simpa using h))

/-- The culling loop preserves the kept-list synchronisation, the bound on
kept indices and, when no replacement can fire (no member's effective OCR
confidence strictly exceeds another's), the pairwise below-threshold
property of the kept indices. -/
theorem cullGo_inv (texts : List String) (confs : List ℚ)
    (hconf : ∀ i j : Nat, i < texts.length → j < texts.length →
      confs.getD i 0 = confs.getD j 0) :
    ∀ (is : List Nat), (∀ i ∈ is, i < texts.length) →
      ∀ (st : ConsolidateArtifacts.CullState),
      st.unique_texts = st.unique_indices.map (fun j => texts.getD j "") →
      List.Pairwise (fun j1 j2 =>
        ConsolidateArtifacts.text_similarity (texts.getD j2 "") (texts.getD j1 "") ≤
          ConsolidateArtifacts.SIMILARITY_THRESHOLD) st.unique_indices →
      (∀ j ∈ st.unique_indices, j < texts.length) →
      (is.foldl (ConsolidateArtifacts.cullStep texts confs) st).unique_texts =
        ((is.foldl (ConsolidateArtifacts.cullStep texts confs) st).unique_indices.map
          (fun j => texts.getD j "")) ∧
      List.Pairwise (fun j1 j2 =>
        ConsolidateArtifacts.text_similarity (texts.getD j2 "") (texts.getD j1 "") ≤
          ConsolidateArtifacts.SIMILARITY_THRESHOLD)
        (is.foldl (ConsolidateArtifacts.cullStep texts confs) st).unique_indices := by
  intro is
  induction is with
  | nil => intro _ st h1 h2 _; exact ⟨h1, h2⟩
  | cons i rest ih =>
    intro his st h1 h2 h3
    rw [List.foldl_cons]
    have hi : i < texts.length := his i (List.mem_cons_self i rest)
    have hstep :
        (ConsolidateArtifacts.cullStep texts confs st i).unique_texts =
          ((ConsolidateArtifacts.cullStep texts confs st i).unique_indices.map
            (fun j => texts.getD j "")) ∧
        List.Pairwise (fun j1 j2 =>
          ConsolidateArtifacts.text_similarity (texts.getD j2 "") (texts.getD j1 "") ≤
            ConsolidateArtifacts.SIMILARITY_THRESHOLD)
          (ConsolidateArtifacts.cullStep texts confs st i).unique_indices ∧
        (∀ j ∈ (ConsolidateArtifacts.cullStep texts confs st i).unique_indices,
          j < texts.length) := by
      cases hfind : st.unique_indices.find? (fun j =>
          decide (ConsolidateArtifacts.SIMILARITY_THRESHOLD <
            ConsolidateArtifacts.text_similarity (texts.getD i "") (texts.getD j ""))) with
      | some j =>
        have hj : j < texts.length := h3 j (List.mem_of_find?_eq_some hfind)
        have hne : ¬ (confs.getD j 0 < confs.getD i 0) := by
          rw [hconf j i hj hi]
          exact lt_irrefl _
        simp only [ConsolidateArtifacts.cullStep, hfind, if_neg hne]
        exact ⟨h1, h2, h3⟩
      | none =>
        simp only [ConsolidateArtifacts.cullStep, hfind]
        split
        · refine ⟨?_, ?_, ?_⟩
          · simp [h1]
          · rw [List.pairwise_append]
            refine ⟨h2, List.pairwise_singleton _ _, ?_⟩
            intro j1 hj1 j2 hj2
            rw [List.mem_singleton] at hj2
            subst hj2
            have hnd := List.find?_eq_none.mp hfind j1 hj1
            simp only [decide_eq_true_eq] at hnd
            exact le_of_not_lt hnd
          · intro j hjmem
            rcases List.mem_append.mp hjmem with hjmem | hjmem
            · exact h3 j hjmem
            · rw [List.mem_singleton] at hjmem
              subst hjmem
              exact hi
        · exact ⟨h1, h2, h3⟩
    exact ih (fun x hx => his x (List.mem_cons_of_mem i hx)) _ hstep.1 hstep.2.1 hstep.2.2

/-- Claim C3, counterexample: two texts with similarity exactly 0.85 both
survive culling and both appear in merged_text, because the source
compares with a strict greater-than against the threshold.  The two texts
share a 17-character prefix and have unrelated 3-character tails, so the
matcher reports 2*17/40 = 0.85 exactly. -/
theorem C3_counterexample :
    ConsolidateArtifacts.cullGroup
        (["abcdefghijklmnopqrst", "abcdefghijklmnopqwxy"]) [] =
      ⟨["abcdefghijklmnopqrst", "abcdefghijklmnopqwxy"], [0, 1]⟩ ∧
    ConsolidateArtifacts.text_similarity ("abcdefghijklmnopqwxy")
        ("abcdefghijklmnopqrst") = 17/20 ∧
    ConsolidateArtifacts.SIMILARITY_THRESHOLD ≤ 17/20 ∧
    ConsolidateArtifacts.merged_text (["abcdefghijklmnopqrst", "abcdefghijklmnopqwxy"]) [] =
      "abcdefghijklmnopqrst\n\n---\n\nabcdefghijklmnopqwxy" := by
  refine ⟨by decide, by decide, by decide, by decide⟩

/-- Claim C3, amended: the duplicate test is strict (similarity must
exceed 0.85; a pair at exactly 0.85 is kept in full).  When no
replacement fires — the effective confidences of the group's members are
all equal, for example all absent (defaulting to 0) or all 0.9 — every
text appended to merged_text has similarity at most 0.85 to every
earlier kept text.  And on a strict match the higher-confidence text of
the pair is retained: the kept slot is overwritten in place exactly when
the new member's confidence strictly exceeds the kept one's, while on a
tie or lower the state is unchanged and the first-kept text stays. -/
theorem C3_amended (texts : List String) (confs : List ℚ) :
    ((∀ i j : Nat, i < texts.length → j < texts.length →
        confs.getD i 0 = confs.getD j 0) →
      List.Pairwise (fun t1 t2 =>
        ConsolidateArtifacts.text_similarity t2 t1 ≤
          ConsolidateArtifacts.SIMILARITY_THRESHOLD)
        (ConsolidateArtifacts.cullGroup texts confs).unique_texts) ∧
    (∀ (st : ConsolidateArtifacts.CullState) (i j : Nat),
      st.unique_texts = st.unique_indices.map (fun k => texts.getD k "") →
      st.unique_indices.find? (fun k =>
        decide (ConsolidateArtifacts.SIMILARITY_THRESHOLD <
          ConsolidateArtifacts.text_similarity (texts.getD i "") (texts.getD k ""))) =
        some j →
      ((confs.getD j 0 < confs.getD i 0 →
        (ConsolidateArtifacts.cullStep texts confs st i).unique_texts =
          st.unique_texts.set (st.unique_indices.indexOf j) (texts.getD i "") ∧
        texts.getD i "" ∈ (ConsolidateArtifacts.cullStep texts confs st i).unique_texts) ∧
      (confs.getD i 0 ≤ confs.getD j 0 →
        ConsolidateArtifacts.cullStep texts confs st i = st ∧
        texts.getD j "" ∈
          (ConsolidateArtifacts.cullStep texts confs st i).unique_texts))) := by
  constructor
  · intro hconf
    have h := cullGo_inv texts confs hconf (List.range texts.length)
      (by intro x hx; simpa using hx) ⟨[], []⟩ rfl (by simp) (by simp)
    rw [ConsolidateArtifacts.cullGroup]
    rw [h.1]
    rw [List.pairwise_map]
    exact h.2
  · intro st i j hsync hfind
    constructor
    · intro hlt
      have hstep : ConsolidateArtifacts.cullStep texts confs st i =
          ⟨st.unique_texts.set (st.unique_indices.indexOf j) (texts.getD i ""),
            st.unique_indices.set (st.unique_indices.indexOf j) i⟩ := by
        simp only [ConsolidateArtifacts.cullStep, hfind, if_pos hlt]
      rw [hstep]
      refine ⟨rfl, ?_⟩
      have hjmem : j ∈ st.unique_indices := List.mem_of_find?_eq_some hfind
      have hidx : st.unique_indices.indexOf j < st.unique_indices.length :=
        List.indexOf_lt_length.mpr hjmem
      have hlen : st.unique_indices.indexOf j < st.unique_texts.length := by
        rw [hsync, List.length_map]
        exact hidx
      exact mem_set_self _ st.unique_texts _ hlen
    · intro hle
      have hnlt : ¬ (confs.getD j 0 < confs.getD i 0) := not_lt.mpr hle
      have hstep : ConsolidateArtifacts.cullStep texts confs st i = st := by
        simp only [ConsolidateArtifacts.cullStep, hfind, if_neg hnlt]
      rw [hstep]
      refine ⟨rfl, ?_⟩
      rw [hsync]
      exact List.mem_map_of_mem _ (List.mem_of_find?_eq_some hfind)

set_option maxRecDepth 8192 in
/-- Witness for C3_amended: the no-replacement guarantee on a two-text
group with absent confidences, the in-place replacement on a strict match
when the new member's confidence 3/4 exceeds the kept 1/2, and the
unchanged state on a confidence tie. -/
theorem C3_amended_witness :
    (List.Pairwise (fun t1 t2 =>
      ConsolidateArtifacts.text_similarity t2 t1 ≤
        ConsolidateArtifacts.SIMILARITY_THRESHOLD)
      (ConsolidateArtifacts.cullGroup (["ab", "xy"]) []).unique_texts) ∧
    ((ConsolidateArtifacts.cullStep (["aaaaaaa", "aaaaaab"])
        ([1/2, 3/4]) ⟨["aaaaaaa"], [0]⟩ 1).unique_texts =
      [("aaaaaab")] ∧
    ("aaaaaab") ∈ (ConsolidateArtifacts.cullStep
        (["aaaaaaa", "aaaaaab"]) ([1/2, 3/4])
        ⟨["aaaaaaa"], [0]⟩ 1).unique_texts) ∧
    (ConsolidateArtifacts.cullStep (["aaaaaaa", "aaaaaab"])
        ([1/2, 1/2]) ⟨["aaaaaaa"], [0]⟩ 1 =
      ⟨["aaaaaaa"], [0]⟩ ∧
    ("aaaaaaa") ∈ (ConsolidateArtifacts.cullStep
        (["aaaaaaa", "aaaaaab"]) ([1/2, 1/2])
        ⟨["aaaaaaa"], [0]⟩ 1).unique_texts) := by
  refine ⟨(C3_amended (["ab", "xy"]) []).1 (fun i j _ _ => by simp), ?_, ?_⟩
  · have h := ((C3_amended (["aaaaaaa", "aaaaaab"])
      ([1/2, 3/4])).2 ⟨["aaaaaaa"], [0]⟩ 1 0 rfl (by decide)).1 (by decide)
    exact ⟨h.1.trans (by decide), h.2⟩
  · have h := ((C3_amended (["aaaaaaa", "aaaaaab"])
      ([1/2, 1/2])).2 ⟨["aaaaaaa"], [0]⟩ 1 0 rfl (by decide)).2 (by decide)
    exact ⟨h.1, h.2⟩

/-! ## Claim C4 -/

/-- Claim C4, counterexample: with pairwise similarities 0.9, 0.9, 0.2
inside one session, the two 0.9 edges necessarily share endpoints, so
union-find connects all three records: the produced grouping is a single
three-member component.  No two-member component exists and no record is
left as a singleton, contrary to the claim. -/
theorem C4_counterexample :
    (RefineArtifactGroups.find_content_groups
        ([("img_0001", "img_0002", 9/10), ("img_0001", "img_0003", 9/10),
          ("img_0002", "img_0003", 2/10)])
        RefineArtifactGroups.MEDIUM_SIMILARITY).map (fun g => g.2) =
      [["img_0001", "img_0002", "img_0003"]] := by
  decide

/-- Claim C4, amended: the 0.9/0.9/0.2 session collapses to one
three-member content group (root img_0003, members in insertion order);
its group_confidence is round(0.7 * (2/3) + 0.3 * 0.2, 3) = 0.527, the
component is flagged for review, and the recorded reason is
low_confidence (0.527 < 0.6) rather than any record staying a
session_default singleton. -/
theorem C4_amended :
    RefineArtifactGroups.refineMultiGroups
        ([("img_0001", "img_0002", 9/10), ("img_0001", "img_0003", 9/10),
          ("img_0002", "img_0003", 2/10)]) =
      [(["img_0001", "img_0002", "img_0003"], 527/1000, true, "low_confidence")] := by
  decide

/-! ## Claim C7 -/

/-- Pointwise smaller in-group similarities give pointwise smaller
filtered similarity lists. -/
theorem groupSims_forall2 (ids : List String) :
    ∀ {sims1 sims2 : List (String × String × ℚ)},
      List.Forall₂ (fun s t => s.1 = t.1 ∧ s.2.1 = t.2.1 ∧ t.2.2 ≤ s.2.2) sims1 sims2 →
      List.Forall₂ (fun x y => y ≤ x)
        (RefineArtifactGroups.groupSims ids sims1) (RefineArtifactGroups.groupSims ids sims2) := by
  intro sims1 sims2 h
  induction h with
  | nil => exact List.Forall₂.nil
  | cons hst hrest ih =>
    rename_i s t l1 l2
    obtain ⟨h1, h2, h3⟩ := hst
    rw [RefineArtifactGroups.groupSims, RefineArtifactGroups.groupSims,
      List.filterMap_cons, List.filterMap_cons]
    by_cases hmem : s.1 ∈ ids ∧ s.2.1 ∈ ids
    · rw [if_pos hmem, if_pos (by rw [← h1, ← h2]; exact hmem)]
      exact List.Forall₂.cons h3 ih
    · rw [if_neg hmem, if_neg (by rw [← h1, ← h2]; exact hmem)]
      exact ih

/-- List sums respect the pointwise order. -/
theorem sum_le_of_forall2 {l1 l2 : List ℚ}
    (h : List.Forall₂ (fun x y => y ≤ x) l1 l2) : l2.sum ≤ l1.sum := by
  induction h with
  | nil => exact le_refl 0
  | cons hxy _ ih =>
    rw [List.sum_cons, List.sum_cons]
    exact add_le_add hxy ih

/-- The running minimum respects the pointwise order. -/
theorem foldl_min_le_of_forall2 {l1 l2 : List ℚ} :
    List.Forall₂ (fun x y => y ≤ x) l1 l2 →
    ∀ {a1 a2 : ℚ}, a2 ≤ a1 → l2.foldl min a2 ≤ l1.foldl min a1 := by
  intro h
  induction h with
  | nil => intro a1 a2 ha; exact ha
  | cons hxy _ ih =>
    intro a1 a2 ha
    rw [List.foldl_cons, List.foldl_cons]
    exact ih (min_le_min ha hxy)

/-- Rounding to three decimals is monotone. -/
theorem round3_mono {x y : ℚ} (h : x ≤ y) :
    RefineArtifactGroups.round3 x ≤ RefineArtifactGroups.round3 y := by
  rw [RefineArtifactGroups.round3, RefineArtifactGroups.round3]
  have : round (x * 1000) ≤ round (y * 1000) := by
    rw [round_eq, round_eq]
    exact Int.floor_le_floor (by linarith)
  have hc : ((round (x * 1000) : ℤ) : ℚ) ≤ ((round (y * 1000) : ℤ) : ℚ) := by exact_mod_cast this
  exact div_le_div_of_nonneg_right hc (by norm_num)

set_option maxRecDepth 8192 in
/-- Claim C7, counterexample: the computed confidence is the rounded
value, not the raw weighted formula.  For the two-member group with
single in-group similarity 1/3 the raw formula gives
0.7 * (1/3) + 0.3 * (1/3) = 1/3, but the source rounds to three decimals
and returns 0.333. -/
theorem C7_counterexample :
    RefineArtifactGroups.calculate_group_confidence (["a", "b"]) ([("a", "b", 1/3)]) =
        333/1000 ∧
      (333 : ℚ)/1000 ≠ ((1 : ℚ)/3) * (7/10) + ((1 : ℚ)/3) * (3/10) := by
  refine ⟨by decide, by decide⟩

/-- Claim C7, amended: for a multi-member component with in-group
similarities the confidence equals round(mean * 0.7 + min * 0.3, 3), and
decreasing in-group similarities pointwise (in particular, decreasing the
minimum) never increases the result, because both the mean and the
minimum decrease and rounding is monotone. -/
theorem C7_amended :
    (∀ (ids : List String) (sims : List (String × String × ℚ)) (x : ℚ) (xs : List ℚ),
      ¬ ids.length ≤ 1 →
      RefineArtifactGroups.groupSims ids sims = x :: xs →
      RefineArtifactGroups.calculate_group_confidence ids sims =
        RefineArtifactGroups.round3
          ((((x :: xs).sum / ((x :: xs).length : ℚ)) * (7/10)) + ((xs.foldl min x) * (3/10)))) ∧
    (∀ (ids : List String) (sims1 sims2 : List (String × String × ℚ)),
      List.Forall₂ (fun s t => s.1 = t.1 ∧ s.2.1 = t.2.1 ∧ t.2.2 ≤ s.2.2) sims1 sims2 →
      RefineArtifactGroups.calculate_group_confidence ids sims2 ≤
        RefineArtifactGroups.calculate_group_confidence ids sims1) := by
  constructor
  · intro ids sims x xs hlen hsims
    rw [RefineArtifactGroups.calculate_group_confidence, if_neg hlen, hsims]
  · intro ids sims1 sims2 h
    rw [RefineArtifactGroups.calculate_group_confidence,
      RefineArtifactGroups.calculate_group_confidence]
    split
    · exact le_refl 1
    · have h2 := groupSims_forall2 ids h
      generalize hg1 : RefineArtifactGroups.groupSims ids sims1 = g1 at h2 ⊢
      generalize hg2 : RefineArtifactGroups.groupSims ids sims2 = g2 at h2 ⊢
      cases h2 with
      | nil => exact le_refl (1/2)
      | cons hxy hrest =>
        rename_i x y xs ys
        have hlen : (x :: xs).length = (y :: ys).length := by
          simpa using List.Forall₂.length_eq hrest
        refine round3_mono ?_
        have hsum : (y :: ys).sum ≤ (x :: xs).sum :=
          sum_le_of_forall2 (List.Forall₂.cons hxy hrest)
        have hmin : (ys.foldl min y) ≤ (xs.foldl min x) :=
          foldl_min_le_of_forall2 hrest hxy
        have hlpos : (0 : ℚ) < ((y :: ys).length : ℚ) := by
          simp only [List.length_cons]
          positivity
        have havg : (y :: ys).sum / ((y :: ys).length : ℚ) ≤
            (x :: xs).sum / ((x :: xs).length : ℚ) := by
          rw [hlen]
          exact div_le_div_of_nonneg_right hsum (le_of_lt hlpos)
        have h7 : ((y :: ys).sum / ((y :: ys).length : ℚ)) * (7/10) ≤
            ((x :: xs).sum / ((x :: xs).length : ℚ)) * (7/10) :=
          mul_le_mul_of_nonneg_right havg (by norm_num)
        have h3 : (ys.foldl min y) * (3/10) ≤ (xs.foldl min x) * (3/10) :=
          mul_le_mul_of_nonneg_right hmin (by norm_num)
        exact add_le_add h7 h3

/-- Witness for C7_amended: the formula part on a concrete two-member
group, and the monotonicity part on a pointwise-lowered similarity list. -/
theorem C7_amended_witness :
    RefineArtifactGroups.calculate_group_confidence (["a", "b"]) ([("a", "b", 1/2)]) =
        RefineArtifactGroups.round3
          (((((1 : ℚ)/2) :: ([] : List ℚ)).sum / ((((1 : ℚ)/2) :: ([] : List ℚ)).length : ℚ)) *
              (7/10) +
            (([] : List ℚ).foldl min ((1 : ℚ)/2)) * (3/10)) ∧
      RefineArtifactGroups.calculate_group_confidence (["a", "b"]) ([("a", "b", 1/3)]) ≤
        RefineArtifactGroups.calculate_group_confidence (["a", "b"]) ([("a", "b", 1/2)]) :=
  ⟨C7_amended.1 (["a", "b"]) ([("a", "b", 1/2)]) (1/2) [] (by decide) (by decide),
    C7_amended.2 (["a", "b"]) ([("a", "b", 1/2)]) ([("a", "b", 1/3)])
      (List.Forall₂.cons ⟨rfl, rfl, by norm_num⟩ List.Forall₂.nil)⟩

/-! ## Claim C8 -/

set_option maxRecDepth 16384 in
/-- Claim C8, confirmed: a multi-member component is flagged for review
exactly when its confidence is below 0.6 or it has more than 5 members,
with reason low_confidence in the first case and large_group otherwise;
and the concrete seven-member component with all 21 pairwise similarities
at 0.95 keeps confidence 0.95 yet is flagged, with reason large_group,
solely because of its size. -/
theorem C8_review_rule :
    (∀ (confidence : ℚ) (size : Nat),
      (RefineArtifactGroups.needsReviewFlag confidence size = true ↔
        (confidence < 6/10 ∨ 5 < size)) ∧
      (confidence < 6/10 → RefineArtifactGroups.reviewReason confidence = "low_confidence") ∧
      (¬ confidence < 6/10 → RefineArtifactGroups.reviewReason confidence = "large_group")) ∧
    RefineArtifactGroups.refineMultiGroups
        ([("img_0001", "img_0002", 19/20), ("img_0001", "img_0003", 19/20),
          ("img_0001", "img_0004", 19/20), ("img_0001", "img_0005", 19/20),
          ("img_0001", "img_0006", 19/20), ("img_0001", "img_0007", 19/20),
          ("img_0002", "img_0003", 19/20), ("img_0002", "img_0004", 19/20),
          ("img_0002", "img_0005", 19/20), ("img_0002", "img_0006", 19/20),
          ("img_0002", "img_0007", 19/20), ("img_0003", "img_0004", 19/20),
          ("img_0003", "img_0005", 19/20), ("img_0003", "img_0006", 19/20),
          ("img_0003", "img_0007", 19/20), ("img_0004", "img_0005", 19/20),
          ("img_0004", "img_0006", 19/20), ("img_0004", "img_0007", 19/20),
          ("img_0005", "img_0006", 19/20), ("img_0005", "img_0007", 19/20),
          ("img_0006", "img_0007", 19/20)]) =
      [(["img_0001", "img_0002", "img_0003", "img_0004", "img_0005", "img_0006",
          "img_0007"], 19/20, true, "large_group")] ∧
    ¬ ((19 : ℚ)/20 < 6/10) := by
  refine ⟨?_, by decide, by decide⟩
  intro confidence size
  refine ⟨?_, ?_, ?_⟩
  · rw [RefineArtifactGroups.needsReviewFlag]
    simp
  · intro h
    rw [RefineArtifactGroups.reviewReason, if_pos h]
  · intro h
    rw [RefineArtifactGroups.reviewReason, if_neg h]

/-- Witness for C8_review_rule at the concrete seven-member flag values. -/
theorem C8_review_rule_witness :
    RefineArtifactGroups.needsReviewFlag ((19 : ℚ)/20) 7 = true ↔
      ((19 : ℚ)/20 < 6/10 ∨ 5 < 7) :=
  (C8_review_rule.1 ((19 : ℚ)/20) 7).1

/-! ## Claim C6 -/

namespace BuildImagesInventory

/-- The session bookkeeping of the inventory loop, as one fold invariant:
the state mirrors the last emitted row, the first row opens session 1 at
index 1, and consecutive rows switch sessions exactly on gaps above the
threshold with contiguous indices. -/
theorem invFold_session (rows : List SrcRow) :
    ∀ (s : InvState),
      (s.out = [] → s.last_dt = none ∧ s.session_id = 0) →
      (∀ lr, s.out.getLast? = some lr →
        s.last_dt = some lr.ts ∧ s.session_id = lr.session_num ∧
          s.session_count = lr.session_index) →
      (0 < s.out.length →
        (s.out.getD 0 dOut).session_num = 1 ∧ (s.out.getD 0 dOut).session_index = 1) →
      (∀ i, i + 1 < s.out.length →
        (((s.out.getD (i+1) dOut).session_num ≠ (s.out.getD i dOut).session_num) ↔
          session_threshold_sec < (s.out.getD (i+1) dOut).ts - (s.out.getD i dOut).ts) ∧
        ((s.out.getD (i+1) dOut).session_num ≠ (s.out.getD i dOut).session_num →
          (s.out.getD (i+1) dOut).session_index = 1) ∧
        ((s.out.getD (i+1) dOut).session_num = (s.out.getD i dOut).session_num →
          (s.out.getD (i+1) dOut).session_index = (s.out.getD i dOut).session_index + 1)) →
      ((rows.foldl invStep s).out = [] →
        (rows.foldl invStep s).last_dt = none ∧ (rows.foldl invStep s).session_id = 0) ∧
      (∀ lr, (rows.foldl invStep s).out.getLast? = some lr →
        (rows.foldl invStep s).last_dt = some lr.ts ∧
          (rows.foldl invStep s).session_id = lr.session_num ∧
          (rows.foldl invStep s).session_count = lr.session_index) ∧
      (0 < (rows.foldl invStep s).out.length →
        ((rows.foldl invStep s).out.getD 0 dOut).session_num = 1 ∧
        ((rows.foldl invStep s).out.getD 0 dOut).session_index = 1) ∧
      (∀ i, i + 1 < (rows.foldl invStep s).out.length →
        ((((rows.foldl invStep s).out.getD (i+1) dOut).session_num ≠
            ((rows.foldl invStep s).out.getD i dOut).session_num) ↔
          session_threshold_sec < ((rows.foldl invStep s).out.getD (i+1) dOut).ts -
            ((rows.foldl invStep s).out.getD i dOut).ts) ∧
        (((rows.foldl invStep s).out.getD (i+1) dOut).session_num ≠
            ((rows.foldl invStep s).out.getD i dOut).session_num →
          ((rows.foldl invStep s).out.getD (i+1) dOut).session_index = 1) ∧
        (((rows.foldl invStep s).out.getD (i+1) dOut).session_num =
            ((rows.foldl invStep s).out.getD i dOut).session_num →
          ((rows.foldl invStep s).out.getD (i+1) dOut).session_index =
            ((rows.foldl invStep s).out.getD i dOut).session_index + 1)) := by
  induction rows with
  | nil =>
    intro s h0 hlast hfirst hpair
    exact ⟨h0, hlast, hfirst, hpair⟩
  | cons r rest ih =>
    intro s h0 hlast hfirst hpair
    rw [List.foldl_cons]
    -- establish the four invariant components for invStep s r
    have hout : (invStep s r).out = s.out ++ [invRow s r] := rfl
    refine ih (invStep s r) ?_ ?_ ?_ ?_
    · intro hc
      rw [hout] at hc
      exact absurd hc (by simp)
    · intro lr hlr
      rw [hout, List.getLast?_concat] at hlr
      cases hlr
      refine ⟨rfl, rfl, rfl⟩
    · intro _
      rw [hout]
      cases hso : s.out with
      | nil =>
        obtain ⟨hdt, hsid⟩ := h0 hso
        have hnew : invNewSession s r = true := by
          rw [invNewSession, hdt]
        have h1 : invSessionId s r = s.session_id + 1 := by
          rw [invSessionId, if_pos hnew]
        have h2 : invSessionCount s r = 1 := by
          rw [invSessionCount, if_pos hnew]
        constructor
        · show (([] ++ [invRow s r]).getD 0 dOut).session_num = 1
          simp [invRow, h1, hsid]
        · show (([] ++ [invRow s r]).getD 0 dOut).session_index = 1
          simp [invRow, h2]
      | cons o t =>
        have hlen : 0 < s.out.length := by rw [hso]; simp
        have hf := hfirst hlen
        rw [hso] at hf
        simpa using hf
    · intro i hi
      rw [hout] at hi ⊢
      simp only [List.length_append, List.length_cons, List.length_nil] at hi
      by_cases hcase : i + 1 < s.out.length
      · rw [List.getD_append _ _ _ _ hcase, List.getD_append _ _ _ _ (by omega)]
        exact hpair i hcase
      · -- the new pair: previous last row and the appended row
        have hieq : i + 1 = s.out.length := by omega
        have hipos : i < s.out.length := by omega
        have hnonnil : s.out ≠ [] := by
          intro hc
          rw [hc] at hipos
          simp at hipos
        -- the row at index i is the last row of s.out
        have hlastget : s.out.getLast? = some (s.out.getD i dOut) := by
          rw [List.getLast?_eq_getElem?]
          have h1 : s.out.length - 1 = i := by omega
          rw [h1, List.getD_eq_getElem?_getD, List.getElem?_eq_getElem hipos]
          rfl
        obtain ⟨hdt, hsid, hcnt⟩ := hlast _ hlastget
        have hgd1 : (s.out ++ [invRow s r]).getD (i+1) dOut = invRow s r := by
          rw [List.getD_eq_getElem?_getD, hieq, List.getElem?_concat_length]
          rfl
        have hgd0 : (s.out ++ [invRow s r]).getD i dOut = s.out.getD i dOut :=
          List.getD_append _ _ _ _ hipos
        rw [hgd1, hgd0]
        have hnewiff : invNewSession s r = true ↔
            session_threshold_sec < r.ts - (s.out.getD i dOut).ts := by
          rw [invNewSession, hdt]
          simp
        by_cases hnew : invNewSession s r = true
        · have h1 : invSessionId s r = s.session_id + 1 := by
            rw [invSessionId, if_pos hnew]
          have h2 : invSessionCount s r = 1 := by
            rw [invSessionCount, if_pos hnew]
          refine ⟨?_, ?_, ?_⟩
          · constructor
            · intro _
              rw [show (invRow s r).ts = r.ts from rfl]
              exact hnewiff.mp hnew
            · intro _
              show invSessionId s r ≠ (s.out.getD i dOut).session_num
              rw [h1, hsid]
              omega
          · intro _
            show invSessionCount s r = 1
            exact h2
          · intro hc
            exfalso
            have : invSessionId s r = (s.out.getD i dOut).session_num := hc
            rw [h1, hsid] at this
            omega
        · have h1 : invSessionId s r = s.session_id := by
            rw [invSessionId, if_neg hnew]
          have h2 : invSessionCount s r = s.session_count + 1 := by
            rw [invSessionCount, if_neg hnew]
          have hngap : ¬ session_threshold_sec < r.ts - (s.out.getD i dOut).ts := by
            intro hc
            exact hnew (hnewiff.mpr hc)
          refine ⟨?_, ?_, ?_⟩
          · constructor
            · intro hc
              exfalso
              apply hc
              show invSessionId s r = (s.out.getD i dOut).session_num
              rw [h1, hsid]
            · intro hc
              exact absurd hc hngap
          · intro hc
            exfalso
            apply hc
            show invSessionId s r = (s.out.getD i dOut).session_num
            rw [h1, hsid]
          · intro _
            show invSessionCount s r = (s.out.getD i dOut).session_index + 1
            rw [h2, hcnt]
      
end BuildImagesInventory

namespace BuildImagesInventory

/-- The loop emits exactly one output row per input record, in order,
carrying the record's timestamp. -/
theorem invFold_ts (rows : List SrcRow) :
    ∀ (s : InvState),
      ((rows.foldl invStep s).out).map (fun o => o.ts) =
        (s.out.map (fun o => o.ts)) ++ rows.map (fun r => r.ts) := by
  induction rows with
  | nil => intro s; simp
  | cons r rest ih =>
    intro s
    rw [List.foldl_cons, ih (invStep s r)]
    show (((s.out ++ [invRow s r]).map (fun o => o.ts)) ++ rest.map (fun r => r.ts)) = _
    rw [List.map_append, List.map_cons]
    simp [invRow]

end BuildImagesInventory

/-- Claim C6, confirmed: the produced inventory carries the input
timestamps in scan order; the first record opens session 1 at
session_index 1; and for every pair of consecutive records a new session
starts (the session counter changes) exactly when the timestamp gap
strictly exceeds the 90-second threshold, with the session index
restarting at 1 on a session change and incrementing by 1 otherwise
(hence indices are contiguous from 1 within every session). -/
theorem C6_sessions (rows : List BuildImagesInventory.SrcRow) :
    ((BuildImagesInventory.buildInventory rows).map (fun o => o.ts) =
      rows.map (fun r => r.ts)) ∧
    (0 < (BuildImagesInventory.buildInventory rows).length →
      ((BuildImagesInventory.buildInventory rows).getD 0 BuildImagesInventory.dOut).session_num = 1 ∧
      ((BuildImagesInventory.buildInventory rows).getD 0 BuildImagesInventory.dOut).session_index = 1) ∧
    (∀ i, i + 1 < (BuildImagesInventory.buildInventory rows).length →
      ((((BuildImagesInventory.buildInventory rows).getD (i+1) BuildImagesInventory.dOut).session_num ≠
          ((BuildImagesInventory.buildInventory rows).getD i BuildImagesInventory.dOut).session_num) ↔
        BuildImagesInventory.session_threshold_sec <
          ((BuildImagesInventory.buildInventory rows).getD (i+1) BuildImagesInventory.dOut).ts -
            ((BuildImagesInventory.buildInventory rows).getD i BuildImagesInventory.dOut).ts) ∧
      (((BuildImagesInventory.buildInventory rows).getD (i+1) BuildImagesInventory.dOut).session_num ≠
          ((BuildImagesInventory.buildInventory rows).getD i BuildImagesInventory.dOut).session_num →
        ((BuildImagesInventory.buildInventory rows).getD (i+1) BuildImagesInventory.dOut).session_index = 1) ∧
      (((BuildImagesInventory.buildInventory rows).getD (i+1) BuildImagesInventory.dOut).session_num =
          ((BuildImagesInventory.buildInventory rows).getD i BuildImagesInventory.dOut).session_num →
        ((BuildImagesInventory.buildInventory rows).getD (i+1) BuildImagesInventory.dOut).session_index =
          ((BuildImagesInventory.buildInventory rows).getD i BuildImagesInventory.dOut).session_index + 1)) := by
  have h := BuildImagesInventory.invFold_session rows BuildImagesInventory.initState
    (fun _ => ⟨rfl, rfl⟩)
    (by intro lr hlr; exact absurd hlr (by simp [BuildImagesInventory.initState]))
    (by intro hc; exact absurd hc (by simp [BuildImagesInventory.initState]))
    (by intro i hi; exact absurd hi (by simp [BuildImagesInventory.initState]))
  refine ⟨?_, h.2.2.1, h.2.2.2⟩
  have ht := BuildImagesInventory.invFold_ts rows BuildImagesInventory.initState
  simpa [BuildImagesInventory.initState] using ht

/-- Witness for C6_sessions: two records 100 seconds apart land in
different sessions (the gap exceeds 90), the second session restarting at
index 1. -/
theorem C6_sessions_witness :
    (((BuildImagesInventory.buildInventory
        [⟨"img_0001", "h1", "raw/a.jpeg", 0⟩, ⟨"img_0002", "h2", "raw/b.jpeg", 100⟩]).getD 1
          BuildImagesInventory.dOut).session_num ≠
      ((BuildImagesInventory.buildInventory
        [⟨"img_0001", "h1", "raw/a.jpeg", 0⟩, ⟨"img_0002", "h2", "raw/b.jpeg", 100⟩]).getD 0
          BuildImagesInventory.dOut).session_num ↔
      BuildImagesInventory.session_threshold_sec <
        ((BuildImagesInventory.buildInventory
          [⟨"img_0001", "h1", "raw/a.jpeg", 0⟩, ⟨"img_0002", "h2", "raw/b.jpeg", 100⟩]).getD 1
            BuildImagesInventory.dOut).ts -
          ((BuildImagesInventory.buildInventory
            [⟨"img_0001", "h1", "raw/a.jpeg", 0⟩, ⟨"img_0002", "h2", "raw/b.jpeg", 100⟩]).getD 0
              BuildImagesInventory.dOut).ts) :=
  ((C6_sessions
    ([⟨"img_0001", "h1", "raw/a.jpeg", 0⟩, ⟨"img_0002", "h2", "raw/b.jpeg", 100⟩])).2.2 0
    (by decide)).1

/-! ## Claim C2 -/

/-- A list's first?-search returns the element at the first index
satisfying the predicate. -/
theorem find?_first {α : Type} (p : α → Bool) (d : α) :
    ∀ (m : List α) (i : Nat), i < m.length → p (m.getD i d) = true →
      (∀ k, k < i → ¬ (p (m.getD k d) = true)) → m.find? p = some (m.getD i d) := by
  intro m
  induction m with
  | nil => intro i hi _ _; simp at hi
  | cons x t ih =>
    intro i hi hp hmin
    cases i with
    | zero =>
      rw [List.getD_cons_zero] at hp ⊢
      exact List.find?_cons_of_pos t hp
    | succ i =>
      have hx : ¬ p x = true := by
        have := hmin 0 (Nat.succ_pos i)
        rwa [List.getD_cons_zero] at this
      rw [List.getD_cons_succ] at hp ⊢
      rw [List.find?_cons_of_neg t hx]
      refine ih i (by simpa using hi) hp ?_
      intro k hk
      have := hmin (k+1) (by omega)
      rwa [List.getD_cons_succ] at this

namespace BuildImagesInventory

/-- The duplicate bookkeeping of the inventory loop, as one fold
invariant: the digest-to-group map stores each emitted row's group, the
digest-to-path map stores the first-seen row's relative path per digest,
the two maps have the same domain, and each row's duplicate_of is the
relative path of the first earlier row sharing its digest (empty when
there is none). -/
theorem invFold_dup (rows : List SrcRow) :
    ∀ (s : InvState),
      (∀ o ∈ s.out, s.digest_to_group.lookup o.sha256 = some o.duplicate_group_id) →
      (∀ sha, s.digest_first_path.lookup sha =
        ((s.out.find? (fun o => o.sha256 == sha)).map (fun o => o.relative_path))) →
      (∀ sha, (s.digest_to_group.lookup sha).isSome =
        (s.digest_first_path.lookup sha).isSome) →
      (∀ i, i < s.out.length → (s.out.getD i dOut).duplicate_of =
        ((((s.out.take i).find?
            (fun o => o.sha256 == (s.out.getD i dOut).sha256)).map
          (fun o => o.relative_path)).getD "")) →
      (∀ o ∈ (rows.foldl invStep s).out,
        (rows.foldl invStep s).digest_to_group.lookup o.sha256 =
          some o.duplicate_group_id) ∧
      (∀ sha, (rows.foldl invStep s).digest_first_path.lookup sha =
        (((rows.foldl invStep s).out.find? (fun o => o.sha256 == sha)).map
          (fun o => o.relative_path))) ∧
      (∀ sha, ((rows.foldl invStep s).digest_to_group.lookup sha).isSome =
        ((rows.foldl invStep s).digest_first_path.lookup sha).isSome) ∧
      (∀ i, i < (rows.foldl invStep s).out.length →
        ((rows.foldl invStep s).out.getD i dOut).duplicate_of =
        (((((rows.foldl invStep s).out.take i).find?
            (fun o => o.sha256 == ((rows.foldl invStep s).out.getD i dOut).sha256)).map
          (fun o => o.relative_path)).getD "")) := by
  induction rows with
  | nil =>
    intro s hG hH hI hT
    exact ⟨hG, hH, hI, hT⟩
  | cons r rest ih =>
    intro s hG hH hI hT
    rw [List.foldl_cons]
    have hout : (invStep s r).out = s.out ++ [invRow s r] := rfl
    have hTold : ∀ i, i < s.out.length →
        ((invStep s r).out.getD i dOut).duplicate_of =
        (((((invStep s r).out.take i).find?
            (fun o => o.sha256 == ((invStep s r).out.getD i dOut).sha256)).map
          (fun o => o.relative_path)).getD "") := by
      intro i hilen
      rw [hout, List.getD_append _ _ _ _ hilen,
        List.take_append_of_le_length (le_of_lt hilen)]
      exact hT i hilen
    have hTnewPre : ∀ h : (invRow s r).duplicate_of =
        ((((s.out.find? (fun o => o.sha256 == r.sha256)).map
          (fun o => o.relative_path)).getD "")),
        (∀ i, i < (invStep s r).out.length →
          ((invStep s r).out.getD i dOut).duplicate_of =
          (((((invStep s r).out.take i).find?
              (fun o => o.sha256 == ((invStep s r).out.getD i dOut).sha256)).map
            (fun o => o.relative_path)).getD "")) := by
      intro hnew i hilen
      rw [hout, List.length_append] at hilen
      simp only [List.length_cons, List.length_nil] at hilen
      by_cases hcase : i < s.out.length
      · exact hTold i hcase
      · have hieq : i = s.out.length := by omega
        subst hieq
        have hgd : (invStep s r).out.getD s.out.length dOut = invRow s r := by
          rw [hout, List.getD_eq_getElem?_getD, List.getElem?_concat_length]
          rfl
        rw [hgd]
        rw [hout, List.take_append_of_le_length le_rfl, List.take_length]
        exact hnew
    cases hl : s.digest_to_group.lookup r.sha256 with
    | some g =>
      have hmaps : (invStep s r).digest_to_group = s.digest_to_group ∧
          (invStep s r).digest_first_path = s.digest_first_path := by
        constructor <;> simp [invStep, invDup, hl]
      have hrow : (invRow s r).duplicate_group_id = g ∧
          (invRow s r).duplicate_of = (s.digest_first_path.lookup r.sha256).getD "" := by
        constructor <;> simp [invRow, invDup, hl]
      have hfind : s.out.find? (fun o => o.sha256 == r.sha256) ≠ none := by
        intro hc
        have h1 := hH r.sha256
        rw [hc] at h1
        have h2 := hI r.sha256
        rw [hl, h1] at h2
        simp at h2
      refine ih (invStep s r) ?_ ?_ ?_ ?_
      · intro o ho
        rw [hout] at ho
        rcases List.mem_append.mp ho with h | h
        · rw [hmaps.1]
          exact hG o h
        · rw [List.mem_singleton] at h
          subst h
          rw [hmaps.1]
          show s.digest_to_group.lookup r.sha256 = _
          rw [hl, hrow.1]
      · intro sha
        rw [hmaps.2, hout, List.find?_append]
        cases hf : s.out.find? (fun o => o.sha256 == sha) with
        | some f =>
          rw [hH sha, hf]
          rfl
        | none =>
          have hne : ¬ (r.sha256 = sha) := by
            intro hc
            subst hc
            exact hfind hf
          have hnone : List.find? (fun o => o.sha256 == sha) [invRow s r] = none := by
            rw [List.find?_cons_of_neg _ (by simpa using hne), List.find?_nil]
          rw [hH sha, hf, hnone]
          rfl
      · intro sha
        rw [hmaps.1, hmaps.2]
        exact hI sha
      · refine hTnewPre ?_
        rw [hrow.2, hH r.sha256]
    | none =>
      have hmaps : (invStep s r).digest_to_group =
            (r.sha256, "D" ++ pad4 (s.group_counter + 1)) :: s.digest_to_group ∧
          (invStep s r).digest_first_path =
            (r.sha256, r.relative_path) :: s.digest_first_path := by
        constructor <;> simp [invStep, invDup, hl]
      have hrow : (invRow s r).duplicate_group_id = "D" ++ pad4 (s.group_counter + 1) ∧
          (invRow s r).duplicate_of = "" := by
        constructor <;> simp [invRow, invDup, hl]
      have hfind : s.out.find? (fun o => o.sha256 == r.sha256) = none := by
        have h2 := hI r.sha256
        rw [hl] at h2
        cases hfp : s.digest_first_path.lookup r.sha256 with
        | some v => rw [hfp] at h2; simp at h2
        | none =>
          have h1 := hH r.sha256
          rw [hfp] at h1
          exact Option.map_eq_none.mp h1.symm
      refine ih (invStep s r) ?_ ?_ ?_ ?_
      · intro o ho
        rw [hout] at ho
        rcases List.mem_append.mp ho with h | h
        · rw [hmaps.1, List.lookup_cons]
          have hne : ¬ (o.sha256 = r.sha256) := by
            intro hc
            have := hG o h
            rw [hc, hl] at this
            cases this
          rw [show (o.sha256 == r.sha256) = false from beq_eq_false_iff_ne.mpr hne]
          exact hG o h
        · rw [List.mem_singleton] at h
          subst h
          rw [hmaps.1, List.lookup_cons]
          show (match (invRow s r).sha256 == r.sha256 with
            | true => some ("D" ++ pad4 (s.group_counter + 1))
            | false => s.digest_to_group.lookup (invRow s r).sha256) = _
          rw [show ((invRow s r).sha256 == r.sha256) = true from by simp [invRow]]
          rw [hrow.1]
      · intro sha
        rw [hmaps.2, hout, List.find?_append, List.lookup_cons]
        by_cases hcase : sha = r.sha256
        · subst hcase
          rw [show (r.sha256 == r.sha256) = true from by simp]
          rw [hfind]
          rw [List.find?_cons_of_pos _ (by simp [invRow])]
          rfl
        · rw [show (sha == r.sha256) = false from beq_eq_false_iff_ne.mpr hcase]
          have hnone : List.find? (fun o => o.sha256 == sha) [invRow s r] = none := by
            rw [List.find?_cons_of_neg _ (by simp [invRow]; exact fun hc => hcase hc.symm),
              List.find?_nil]
          rw [hnone, hH sha]
          cases hf : s.out.find? (fun o => o.sha256 == sha) with
          | some f => rfl
          | none => rfl
      · intro sha
        rw [hmaps.1, hmaps.2, List.lookup_cons, List.lookup_cons]
        by_cases hcase : sha = r.sha256
        · subst hcase
          rw [show (r.sha256 == r.sha256) = true from by simp]
          rfl
        · rw [show (sha == r.sha256) = false from beq_eq_false_iff_ne.mpr hcase]
          exact hI sha
      · refine hTnewPre ?_
        rw [hrow.2, hfind]
        rfl

end BuildImagesInventory

/-- An in-range List.getD is a member of the list. -/
theorem getD_mem {α : Type} (d : α) :
    ∀ (l : List α) (i : Nat), i < l.length → l.getD i d ∈ l := by
  intro l
  induction l with
  | nil => intro i hi; simp at hi
  | cons x t ih =>
    intro i hi
    cases i with
    | zero => simp
    | succ i =>
      rw [List.getD_cons_succ]
      exact List.mem_cons_of_mem x (ih i (by simpa using hi))

/-- List.getD commutes with List.take for indices below the cutoff. -/
theorem getD_take {α : Type} (d : α) :
    ∀ (l : List α) (n i : Nat), i < n → (l.take n).getD i d = l.getD i d := by
  intro l
  induction l with
  | nil => intro n i _; simp
  | cons x t ih =>
    intro n i hin
    cases n with
    | zero => omega
    | succ n =>
      cases i with
      | zero => simp
      | succ i =>
        rw [List.take_succ_cons, List.getD_cons_succ, List.getD_cons_succ]
        exact ih n i (by omega)

open BuildImagesInventory in
/-- C2 (amended): in the inventory produced by the duplicate/session loop,
any two rows with equal sha256 digests receive the same
duplicate_group_id; if row i is the first row carrying its digest and row
j is a later row with the same digest, then row j's duplicate_of is the
RELATIVE PATH of row i (not its image id), and row i's own duplicate_of
is empty. -/
theorem C2_amended (rows : List SrcRow) (i j : Nat)
    (hij : i < j)
    (hj : j < (buildInventory rows).length)
    (hsha : ((buildInventory rows).getD j dOut).sha256 =
      ((buildInventory rows).getD i dOut).sha256)
    (hfirst : ∀ k, k < i →
      ¬ (((buildInventory rows).getD k dOut).sha256 =
        ((buildInventory rows).getD i dOut).sha256)) :
    ((buildInventory rows).getD j dOut).duplicate_group_id =
      ((buildInventory rows).getD i dOut).duplicate_group_id ∧
    ((buildInventory rows).getD j dOut).duplicate_of =
      ((buildInventory rows).getD i dOut).relative_path ∧
    ((buildInventory rows).getD i dOut).duplicate_of = ("") := by
  have hinv := invFold_dup rows initState
    (by intro o ho; simp [initState] at ho)
    (by intro sha; rfl)
    (by intro sha; rfl)
    (by intro k hk; simp [initState] at hk)
  obtain ⟨hG, hH, hI, hT⟩ := hinv
  have houtdef : (rows.foldl invStep initState).out = buildInventory rows := rfl
  rw [houtdef] at hG hT
  have hi' : i < (buildInventory rows).length := lt_trans hij hj
  have h1 := hG _ (getD_mem dOut (buildInventory rows) j hj)
  have h2 := hG _ (getD_mem dOut (buildInventory rows) i hi')
  rw [hsha] at h1
  refine ⟨(Option.some.inj (h2.symm.trans h1)).symm, ?_, ?_⟩
  · have hTj := hT j hj
    have hlen : i < ((buildInventory rows).take j).length := by
      rw [List.length_take]
      omega
    have hp : (fun o => o.sha256 == ((buildInventory rows).getD j dOut).sha256)
        (((buildInventory rows).take j).getD i dOut) = true := by
      rw [getD_take dOut (buildInventory rows) j i hij]
      simp only [beq_iff_eq]
      exact hsha.symm
    have hmin : ∀ k, k < i →
        ¬ ((fun o => o.sha256 == ((buildInventory rows).getD j dOut).sha256)
          (((buildInventory rows).take j).getD k dOut) = true) := by
      intro k hk
      rw [getD_take dOut (buildInventory rows) j k (by omega)]
      simp only [beq_iff_eq]
      rw [hsha]
      exact hfirst k hk
    have hfind := find?_first
      (fun o => o.sha256 == ((buildInventory rows).getD j dOut).sha256) dOut
      ((buildInventory rows).take j) i hlen hp hmin
    rw [getD_take dOut (buildInventory rows) j i hij] at hfind
    rw [hTj, hfind]
    rfl
  · have hTi := hT i hi'
    have hnone : ((buildInventory rows).take i).find?
        (fun o => o.sha256 == ((buildInventory rows).getD i dOut).sha256) = none := by
      rw [List.find?_eq_none]
      intro x hx
      obtain ⟨k, hk, hxk⟩ := List.mem_iff_getElem.mp hx
      have hkl : k < i := by
        have := hk
        rw [List.length_take] at this
        omega
      have hxg : x = (buildInventory rows).getD k dOut := by
        rw [← hxk, ← List.getD_eq_getElem _ dOut hk,
          getD_take dOut (buildInventory rows) i k hkl]
      rw [hxg]
      simp only [beq_iff_eq]
      exact hfirst k hkl
    rw [hTi, hnone]
    rfl

/-- C2 counterexample: duplicate_of holds the first-seen record's
RELATIVE PATH, not its id. With two rows sharing digest h1, the second
row's duplicate_of is the first row's relative_path raw/a.jpeg, which
differs from the first row's id img_0001. -/
theorem C2_counterexample :
    ((BuildImagesInventory.buildInventory
        [⟨"img_0001", "h1", "raw/a.jpeg", 0⟩,
         ⟨"img_0002", "h1", "raw/b.jpeg", 10⟩]).getD 1
      BuildImagesInventory.dOut).duplicate_of = ("raw/a.jpeg") ∧
    ((BuildImagesInventory.buildInventory
        [⟨"img_0001", "h1", "raw/a.jpeg", 0⟩,
         ⟨"img_0002", "h1", "raw/b.jpeg", 10⟩]).getD 0
      BuildImagesInventory.dOut).id = ("img_0001") ∧
    ("raw/a.jpeg") ≠ ("img_0001") := by
  refine ⟨by decide, by decide, by decide⟩

/-- C2 witness: the amended theorem applied to the two-row input with a
shared digest, at first index 0 and later index 1. -/
theorem C2_amended_witness :
    (1 < (BuildImagesInventory.buildInventory
      [⟨"img_0003", "h9", "raw/c.jpeg", 0⟩,
       ⟨"img_0004", "h9", "raw/d.jpeg", 10⟩]).length) ∧
    (((BuildImagesInventory.buildInventory
        [⟨"img_0003", "h9", "raw/c.jpeg", 0⟩,
         ⟨"img_0004", "h9", "raw/d.jpeg", 10⟩]).getD 1
      BuildImagesInventory.dOut).duplicate_group_id =
      ((BuildImagesInventory.buildInventory
        [⟨"img_0003", "h9", "raw/c.jpeg", 0⟩,
         ⟨"img_0004", "h9", "raw/d.jpeg", 10⟩]).getD 0
      BuildImagesInventory.dOut).duplicate_group_id ∧
    ((BuildImagesInventory.buildInventory
        [⟨"img_0003", "h9", "raw/c.jpeg", 0⟩,
         ⟨"img_0004", "h9", "raw/d.jpeg", 10⟩]).getD 1
      BuildImagesInventory.dOut).duplicate_of =
      ((BuildImagesInventory.buildInventory
        [⟨"img_0003", "h9", "raw/c.jpeg", 0⟩,
         ⟨"img_0004", "h9", "raw/d.jpeg", 10⟩]).getD 0
      BuildImagesInventory.dOut).relative_path ∧
    ((BuildImagesInventory.buildInventory
        [⟨"img_0003", "h9", "raw/c.jpeg", 0⟩,
         ⟨"img_0004", "h9", "raw/d.jpeg", 10⟩]).getD 0
      BuildImagesInventory.dOut).duplicate_of = ("")) :=
  ⟨by decide,
    C2_amended
      [⟨"img_0003", "h9", "raw/c.jpeg", 0⟩,
       ⟨"img_0004", "h9", "raw/d.jpeg", 10⟩] 0 1
      (by decide) (by decide) (by decide)
      (fun k hk => absurd hk (Nat.not_lt_zero k))⟩

/-- An alternative of two options yields a value only from one of them. -/
theorem orElse_some {α : Type} {a b : Option α} {y : α} (h : (a <|> b) = some y) :
    a = some y ∨ b = some y := by
  cases a with
  | some x => left; simpa using h
  | none => right; simpa using h

namespace DateExtractor

/-- A matched decimal digit is at most 9. -/
theorem digitAt_le {s : List Char} {p d : Nat} (h : digitAt s p = some d) : d ≤ 9 := by
  unfold digitAt at h
  split at h
  · rename_i c hg
    split at h
    · rename_i hd
      simp [Char.isDigit] at hd
      obtain ⟨ha, hb⟩ := hd
      have ha' : (48 : UInt32).toNat ≤ c.val.toNat := ha
      have hb' : c.val.toNat ≤ (57 : UInt32).toNat := hb
      have hc : c.toNat = c.val.toNat := rfl
      have h48 : (48 : UInt32).toNat = 48 := rfl
      have h57 : (57 : UInt32).toNat = 57 := rfl
      injection h with h
      omega
    · exact absurd h (by simp)
  · exact absurd h (by simp)

/-- The year group shape 1[89]dd or 20dd forces a value in [1800, 2099]. -/
theorem yearDigitsAt_bounds {s : List Char} {p y : Nat}
    (h : yearDigitsAt s p = some y) : 1800 ≤ y ∧ y ≤ 2099 := by
  unfold yearDigitsAt at h
  split at h
  · rename_i d1 d2 d3 d4 h1 h2 h3 h4
    split at h
    · rename_i hcond
      injection h with h
      have b3 := digitAt_le h3
      have b4 := digitAt_le h4
      omega
    · exact absurd h (by simp)
  · exact absurd h (by simp)

/-- A year-pattern match lies in [1800, 2099]. -/
theorem yearMatchAt_bounds {s : List Char} {p y : Nat}
    (h : yearMatchAt s p = some y) : 1800 ≤ y ∧ y ≤ 2099 := by
  unfold yearMatchAt at h
  split at h
  · split at h
    · rename_i y' hy
      split at h
      · injection h with h
        subst h
        exact yearDigitsAt_bounds hy
      · exact absurd h (by simp)
    · exact absurd h (by simp)
  · exact absurd h (by simp)

/-- Folding Nat.max keeps a value inside bounds shared by the seed and
every list element. -/
theorem foldl_max_bounds {lo hi : Nat} : ∀ (l : List Nat) (a : Nat),
    (∀ x ∈ l, lo ≤ x ∧ x ≤ hi) → lo ≤ a → a ≤ hi →
    lo ≤ l.foldl Nat.max a ∧ l.foldl Nat.max a ≤ hi := by
  intro l
  induction l with
  | nil => intro a _ h1 h2; exact ⟨h1, h2⟩
  | cons x t ih =>
    intro a hall h1 h2
    rw [List.foldl_cons]
    have hx := hall x (List.mem_cons_self x t)
    refine ih (Nat.max a x) (fun z hz => hall z (List.mem_cons_of_mem x hz)) ?_ ?_
    · exact le_trans h1 (Nat.le_max_left a x)
    · exact Nat.max_le.mpr ⟨h2, hx.2⟩

/-- Folding Nat.min keeps a value inside bounds shared by the seed and
every list element. -/
theorem foldl_min_bounds {lo hi : Nat} : ∀ (l : List Nat) (a : Nat),
    (∀ x ∈ l, lo ≤ x ∧ x ≤ hi) → lo ≤ a → a ≤ hi →
    lo ≤ l.foldl Nat.min a ∧ l.foldl Nat.min a ≤ hi := by
  intro l
  induction l with
  | nil => intro a _ h1 h2; exact ⟨h1, h2⟩
  | cons x t ih =>
    intro a hall h1 h2
    rw [List.foldl_cons]
    have hx := hall x (List.mem_cons_self x t)
    refine ih (Nat.min a x) (fun z hz => hall z (List.mem_cons_of_mem x hz)) ?_ ?_
    · exact Nat.le_min.mpr ⟨h1, hx.1⟩
    · exact le_trans (Nat.min_le_left a x) h2

/-- Every year found by the findall scan lies in [1800, 2099]. -/
theorem findallYears_bounds {s : List Char} {y : Nat} (h : y ∈ findallYears s) :
    1800 ≤ y ∧ y ≤ 2099 := by
  unfold findallYears at h
  rw [List.mem_filterMap] at h
  obtain ⟨p, _, hp⟩ := h
  exact yearMatchAt_bounds hp

/-- extract_year_from_text returns a year in [1800, 2099]. -/
theorem extract_year_from_text_bounds {s : List Char} {b : Bool} {y : Nat}
    (h : extract_year_from_text s b = some y) : 1800 ≤ y ∧ y ≤ 2099 := by
  unfold extract_year_from_text at h
  split at h
  · exact absurd h (by simp)
  · split at h
    · exact absurd h (by simp)
    · rename_i y0 ys hfa
      injection h with h
      subst h
      have hmem : ∀ x ∈ y0 :: ys, 1800 ≤ x ∧ x ≤ 2099 := by
        intro x hx
        apply findallYears_bounds
        rw [hfa]
        exact hx
      have h0 := hmem y0 (List.mem_cons_self y0 ys)
      split
      · exact foldl_min_bounds ys y0
          (fun x hx => hmem x (List.mem_cons_of_mem y0 hx)) h0.1 h0.2
      · exact foldl_max_bounds ys y0
          (fun x hx => hmem x (List.mem_cons_of_mem y0 hx)) h0.1 h0.2

/-- A year matched after a whitespace run lies in [1800, 2099]. -/
theorem yearAfterSpaces_bounds {s : List Char} {q y : Nat}
    (h : yearAfterSpaces s q = some y) : 1800 ≤ y ∧ y ≤ 2099 := by
  unfold yearAfterSpaces at h
  split at h
  · split at h
    · rename_i y' hy
      split at h
      · injection h with h
        subst h
        exact yearDigitsAt_bounds hy
      · exact absurd h (by simp)
    · exact absurd h (by simp)
  · exact absurd h (by simp)

/-- A keyword-plus-year match yields a year in [1800, 2099]. -/
theorem kwYearMatchAt_bounds {kw s : List Char} {p y : Nat}
    (h : kwYearMatchAt kw s p = some y) : 1800 ≤ y ∧ y ≤ 2099 := by
  unfold kwYearMatchAt at h
  split at h
  · exact yearAfterSpaces_bounds h
  · exact absurd h (by simp)

/-- A keyword search yields a year in [1800, 2099]. -/
theorem searchKwYear_bounds {kw : String} {s : List Char} {y : Nat}
    (h : searchKwYear kw s = some y) : 1800 ≤ y ∧ y ≤ 2099 := by
  unfold searchKwYear at h
  obtain ⟨p, _, hp⟩ := List.exists_of_findSome?_eq_some h
  exact kwYearMatchAt_bounds hp

/-- A year-at-end match lies in [1800, 2099]. -/
theorem endYearMatchAt_bounds {s : List Char} {p y : Nat}
    (h : endYearMatchAt s p = some y) : 1800 ≤ y ∧ y ≤ 2099 := by
  unfold endYearMatchAt at h
  split at h
  · rename_i y' hy
    split at h
    · injection h with h
      subst h
      exact yearMatchAt_bounds hy
    · exact absurd h (by simp)
  · exact absurd h (by simp)

/-- All four high-confidence title patterns yield years in [1800, 2099]. -/
theorem highConfYear_bounds {s : List Char} {y : Nat}
    (h : highConfYear s = some y) : 1800 ≤ y ∧ y ≤ 2099 := by
  unfold highConfYear at h
  rcases orElse_some h with h | h
  · exact searchKwYear_bounds h
  rcases orElse_some h with h | h
  · exact searchKwYear_bounds h
  rcases orElse_some h with h | h
  · exact searchKwYear_bounds h
  obtain ⟨p, _, hp⟩ := List.exists_of_findSome?_eq_some h
  exact endYearMatchAt_bounds hp

/-- The start year of a range match has the 1[89]dd shape, so lies in
[1800, 1999]. -/
theorem rangeMatchAt_start_bounds {s : List Char} {p : Nat} {r : Nat × Nat × Nat}
    (h : rangeMatchAt s p = some r) : 1800 ≤ r.1 ∧ r.1 ≤ 1999 := by
  unfold rangeMatchAt at h
  split at h
  · split at h
    · rename_i d1 d2 d3 d4 h1 h2 h3 h4
      split at h
      · rename_i hcond
        split at h
        · rename_i ep hep
          injection h with h
          subst h
          have b3 := digitAt_le h3
          have b4 := digitAt_le h4
          obtain ⟨_, hd2, _⟩ := hcond
          constructor <;> (simp only []; omega)
        · exact absurd h (by simp)
      · exact absurd h (by simp)
    · exact absurd h (by simp)
  · exact absurd h (by simp)

/-- extract_date_range's start year lies in [1800, 1999]. -/
theorem extract_date_range_start_bounds {t : String} {sy : Nat}
    (h : (extract_date_range t).1 = some sy) : 1800 ≤ sy ∧ sy ≤ 1999 := by
  unfold extract_date_range at h
  split at h
  · exact absurd h (by simp)
  · split at h
    · exact absurd h (by simp)
    · rename_i r hr
      obtain ⟨p, _, hp⟩ := List.exists_of_findSome?_eq_some hr
      have hb := rangeMatchAt_start_bounds hp
      simp only [] at h
      injection h with h
      subst h
      exact hb

/-- extract_year_from_title returns a year in [1800, 2099] (there is no
[1800, 2025] clamp on the title path). -/
theorem extract_year_from_title_bounds {title notes : String} {y : Nat} {c : ℚ}
    (h : extract_year_from_title title notes = (some y, c)) :
    1800 ≤ y ∧ y ≤ 2099 := by
  unfold extract_year_from_title at h
  dsimp only at h
  cases hhc : highConfYear ((title ++ " " ++ notes).toList) with
  | some y' =>
    rw [hhc] at h
    dsimp only at h
    have hb := highConfYear_bounds hhc
    have h1 : some y' = some y := congrArg Prod.fst h
    injection h1 with h1
    subst h1
    exact hb
  | none =>
    rw [hhc] at h
    dsimp only at h
    cases hdr : (extract_date_range (title ++ " " ++ notes)).1 with
    | some sy =>
      rw [hdr] at h
      dsimp only at h
      have hb := extract_date_range_start_bounds hdr
      have h1 : some sy = some y := congrArg Prod.fst h
      injection h1 with h1
      subst h1
      exact ⟨hb.1, le_trans hb.2 (by omega)⟩
    | none =>
      rw [hdr] at h
      dsimp only at h
      cases hss : subjectSearch ((title ++ " " ++ notes).toList) with
      | some z =>
        rw [hss] at h
        dsimp only at h
        simp at h
      | none =>
        rw [hss] at h
        dsimp only at h
        cases hft : extract_year_from_text ((title ++ " " ++ notes).toList) false with
        | some y' =>
          rw [hft] at h
          dsimp only at h
          have hb := extract_year_from_text_bounds hft
          have h1 : some y' = some y := congrArg Prod.fst h
          injection h1 with h1
          subst h1
          exact hb
        | none =>
          rw [hft] at h
          dsimp only at h
          simp at h

/-- The day-then-year tail of the dateline pattern yields a year in
[1800, 2099]. -/
theorem dayThenYear_bounds {s : List Char} {q1 y : Nat}
    (h : dayThenYear s q1 = some y) : 1800 ≤ y ∧ y ≤ 2099 := by
  unfold dayThenYear at h
  rcases orElse_some h with h | h <;>
    (split at h
     · rcases orElse_some h with h | h
       · split at h
         · exact yearAfterSpaces_bounds h
         · exact absurd h (by simp)
       · exact yearAfterSpaces_bounds h
     · exact absurd h (by simp))

/-- A full dateline match yields a year in [1800, 2099]. -/
theorem letterMatchAt_bounds {s : List Char} {p y : Nat}
    (h : letterMatchAt s p = some y) : 1800 ≤ y ∧ y ≤ 2099 := by
  unfold letterMatchAt at h
  obtain ⟨mo, _, hmo⟩ := List.exists_of_findSome?_eq_some h
  split at hmo
  · split at hmo
    · exact dayThenYear_bounds hmo
    · exact absurd hmo (by simp)
  · exact absurd hmo (by simp)

/-- parse_letter_date returns a year in [1800, 2099]. -/
theorem parse_letter_date_bounds {t : String} {y : Nat}
    (h : parse_letter_date t = some y) : 1800 ≤ y ∧ y ≤ 2099 := by
  unfold parse_letter_date at h
  split at h
  · exact absurd h (by simp)
  · obtain ⟨p, _, hp⟩ := List.exists_of_findSome?_eq_some h
    exact letterMatchAt_bounds hp

/-- parse_meeting_date returns a year in [1800, 2099]. -/
theorem parse_meeting_date_bounds {t : String} {y : Nat}
    (h : parse_meeting_date t = some y) : 1800 ≤ y ∧ y ≤ 2099 := by
  unfold parse_meeting_date at h
  split at h
  · exact absurd h (by simp)
  · obtain ⟨line, _, hline⟩ := List.exists_of_findSome?_eq_some h
    split at hline
    · exact extract_year_from_text_bounds hline
    · exact absurd hline (by simp)

/-- parse_publication_imprint returns a year in [1800, 2099]. -/
theorem parse_publication_imprint_bounds {t : String} {y : Nat}
    (h : parse_publication_imprint t = some y) : 1800 ≤ y ∧ y ≤ 2099 := by
  unfold parse_publication_imprint at h
  split at h
  · exact absurd h (by simp)
  · obtain ⟨line, _, hline⟩ := List.exists_of_findSome?_eq_some h
    split at hline
    · exact extract_year_from_text_bounds hline
    · exact absurd hline (by simp)

/-- parse_title_page_date returns a year in [1800, 2099]. -/
theorem parse_title_page_date_bounds {t it : String} {y : Nat}
    (h : parse_title_page_date t it = some y) : 1800 ≤ y ∧ y ≤ 2099 := by
  unfold parse_title_page_date at h
  split at h
  · exact absurd h (by simp)
  · split at h
    · rename_i y' hy
      injection h with h
      subst h
      exact parse_publication_imprint_bounds hy
    · split at h
      · rename_i y' hy
        injection h with h
        subst h
        split at hy
        · exact parse_meeting_date_bounds hy
        · exact absurd hy (by simp)
      · exact extract_year_from_text_bounds h

/-- The OCR path clamps its year to [1800, 2025] before returning. -/
theorem parse_ocr_bounds {a b c : String} {y : Nat} {q : ℚ}
    (h : parse_ocr_for_document_date a b c = (some y, q)) :
    1800 ≤ y ∧ y ≤ 2025 := by
  unfold parse_ocr_for_document_date at h
  split at h
  · exact absurd h (by simp)
  · split at h
    · exact absurd h (by simp)
    · split at h
      · rename_i y' conf hsc
        split at h
        · exact absurd h (by simp)
        · rename_i hclamp
          have h1 : some y' = some y := congrArg Prod.fst h
          injection h1 with h1
          subst h1
          omega
      · exact absurd h (by simp)

end DateExtractor

open DateExtractor in
/-- C1 (amended): the OCR-derived year, when present, lies in
[1800, 2025] thanks to the sanity clamp in parse_ocr_for_document_date;
but the title/notes path has no such clamp, so extract_year_from_title
only guarantees the regex range [1800, 2099], and get_best_date can
surface a title-derived year up to 2099. -/
theorem C1_amended :
    (∀ (a b c : String) (y : Nat) (q : ℚ),
      parse_ocr_for_document_date a b c = (some y, q) →
      1800 ≤ y ∧ y ≤ 2025) ∧
    (∀ (title notes : String) (y : Nat) (q : ℚ),
      extract_year_from_title title notes = (some y, q) →
      1800 ≤ y ∧ y ≤ 2099) ∧
    (∀ (row : InventoryRow) (ocr_text : Option String) (ocr_confidence : ℚ)
      (y : Nat) (src : String) (q : ℚ),
      get_best_date row ocr_text ocr_confidence = (some y, src, q) →
      1800 ≤ y ∧ y ≤ 2099) := by
  refine ⟨fun a b c y q h => parse_ocr_bounds h,
    fun t n y q h => extract_year_from_title_bounds h, ?_⟩
  intro row ocr_text ocr_confidence y src q h
  unfold get_best_date at h
  dsimp only at h
  split at h
  · exact absurd h (by simp)
  · split at h
    · have h1 : (parse_ocr_for_document_date (ocr_text.getD "") row.item_type
          row.item_title).1 = some y := congrArg Prod.fst h
      have hp : parse_ocr_for_document_date (ocr_text.getD "") row.item_type
          row.item_title = (some y, (parse_ocr_for_document_date (ocr_text.getD "")
            row.item_type row.item_title).2) := by
        rw [← h1]
      have hb := parse_ocr_bounds hp
      exact ⟨hb.1, le_trans hb.2 (by omega)⟩
    · split at h
      · have h1 : (extract_year_from_title row.item_title row.notes).1 = some y :=
          congrArg Prod.fst h
        have hp : extract_year_from_title row.item_title row.notes =
            (some y, (extract_year_from_title row.item_title row.notes).2) := by
          rw [← h1]
        exact extract_year_from_title_bounds hp
      · split at h
        · have h1 : (parse_ocr_for_document_date (ocr_text.getD "") row.item_type
              row.item_title).1 = some y := congrArg Prod.fst h
          have hp : parse_ocr_for_document_date (ocr_text.getD "") row.item_type
              row.item_title = (some y, (parse_ocr_for_document_date (ocr_text.getD "")
                row.item_type row.item_title).2) := by
            rw [← h1]
          have hb := parse_ocr_bounds hp
          exact ⟨hb.1, le_trans hb.2 (by omega)⟩
        · split at h
          · have h1 : (extract_year_from_title row.item_title row.notes).1 = some y :=
              congrArg Prod.fst h
            have hp : extract_year_from_title row.item_title row.notes =
                (some y, (extract_year_from_title row.item_title row.notes).2) := by
              rw [← h1]
            exact extract_year_from_title_bounds hp
          · exact absurd h (by simp)

set_option maxRecDepth 16384 in
/-- C1 counterexample: a title year outside [1800, 2025] is surfaced by
get_best_date: with title (dated 2099) and no OCR text, the result is
(2099, title_explicit, 0.8), and 2099 exceeds the claimed cap 2025. -/
theorem C1_counterexample :
    DateExtractor.get_best_date ⟨("document_page"), ("dated 2099"), ("")⟩ none 0 =
      (some 2099, "title_explicit", 8/10) ∧ ¬ (2099 ≤ 2025) := by
  refine ⟨by decide, by decide⟩

set_option maxRecDepth 16384 in
/-- C1 witness: the amended bounds applied to a letter dated 1941 parsed
from OCR, the title (dated 2099), and an end-to-end get_best_date call on
the letter. -/
theorem C1_amended_witness :
    (DateExtractor.parse_ocr_for_document_date ("September 19, 1941") ("letter") ("") =
      (some 1941, 9/10) ∧ 1800 ≤ 1941 ∧ 1941 ≤ 2025) ∧
    (DateExtractor.extract_year_from_title ("dated 2099") ("") = (some 2099, 8/10) ∧
      1800 ≤ 2099 ∧ 2099 ≤ 2099) ∧
    (DateExtractor.get_best_date ⟨("letter"), ("a note"), ("")⟩
        (some ("September 19, 1941")) 1 = (some 1941, "ocr_text", 9/10) ∧
      1800 ≤ 1941 ∧ 1941 ≤ 2099) :=
  ⟨⟨by decide, C1_amended.1 ("September 19, 1941") ("letter") ("") 1941 (9/10) (by decide)⟩,
   ⟨by decide, C1_amended.2.1 ("dated 2099") ("") 2099 (8/10) (by decide)⟩,
   ⟨by decide, C1_amended.2.2 ⟨("letter"), ("a note"), ("")⟩
      (some ("September 19, 1941")) 1 1941 ("ocr_text") (9/10) (by decide)⟩⟩

/-- insertGroup appends the member to the (first) group with the given
key, creating the group at the end when absent: effect on lookups. -/
theorem insertGroup_lookup : ∀ (gs : List (String × List String)) (k i k' : String),
    (insertGroup gs k i).lookup k' =
      if k' = k then some (((gs.lookup k).getD []) ++ [i]) else gs.lookup k' := by
  intro gs
  induction gs with
  | nil =>
    intro k i k'
    by_cases h : k' = k
    · subst h
      simp [insertGroup, List.lookup]
    · simp [insertGroup, List.lookup, h]
      rw [show (k' == k) = false from beq_eq_false_iff_ne.mpr h]
  | cons g rest ih =>
    intro k i k'
    by_cases hk : g.1 = k
    · rw [insertGroup, if_pos hk]
      by_cases h' : k' = k
      · subst h'
        rw [if_pos rfl]
        rw [List.lookup_cons, List.lookup_cons]
        rw [show (k' == g.1) = true from beq_iff_eq.mpr hk.symm]
        simp
      · rw [if_neg h']
        rw [List.lookup_cons, List.lookup_cons]
        rw [show (k' == g.1) = false from beq_eq_false_iff_ne.mpr (fun hc => h' (hc.trans hk))]
    · rw [insertGroup, if_neg hk]
      by_cases h' : k' = k
      · rw [if_pos h', List.lookup_cons, List.lookup_cons,
          show (k' == g.1) = false from beq_eq_false_iff_ne.mpr (fun hc => hk (hc.symm.trans h')),
          show (k == g.1) = false from beq_eq_false_iff_ne.mpr (fun hc => hk hc.symm),
          ih k i k', if_pos h']
      · rw [if_neg h']
        rw [List.lookup_cons, List.lookup_cons]
        cases hb : k' == g.1 with
        | true => rfl
        | false =>
          rw [ih k i k', if_neg h']

/-- insertGroup keeps the existing keys and appends the new key at the
end only when absent. -/
theorem insertGroup_keys : ∀ (gs : List (String × List String)) (k i : String),
    (insertGroup gs k i).map Prod.fst =
      if k ∈ gs.map Prod.fst then gs.map Prod.fst else gs.map Prod.fst ++ [k] := by
  intro gs
  induction gs with
  | nil => intro k i; simp [insertGroup]
  | cons g rest ih =>
    intro k i
    by_cases hk : g.1 = k
    · rw [insertGroup, if_pos hk]
      have : k ∈ (g :: rest).map Prod.fst := by
        rw [List.map_cons, hk]
        exact List.mem_cons_self k _
      rw [if_pos this]
      simp
    · rw [insertGroup, if_neg hk]
      rw [List.map_cons, List.map_cons, ih k i]
      by_cases hmem : k ∈ rest.map Prod.fst
      · rw [if_pos hmem, if_pos (List.mem_cons_of_mem g.1 hmem)]
      · rw [if_neg hmem, if_neg ?_]
        · rw [List.cons_append]
        · intro hc
          rcases List.mem_cons.mp hc with hc | hc
          · exact hk hc.symm
          · exact hmem hc

/-- insertGroup preserves key distinctness. -/
theorem insertGroup_nodup {gs : List (String × List String)} {k i : String}
    (h : (gs.map Prod.fst).Nodup) : ((insertGroup gs k i).map Prod.fst).Nodup := by
  rw [insertGroup_keys]
  by_cases hmem : k ∈ gs.map Prod.fst
  · rw [if_pos hmem]; exact h
  · rw [if_neg hmem]
    rw [List.nodup_append]
    exact ⟨h, List.nodup_singleton k, by simpa using hmem⟩

/-- A successful lookup names an actual entry of the association list. -/
theorem lookup_some_mem {β : Type} : ∀ {gs : List (String × β)} {k : String} {l : β},
    gs.lookup k = some l → (k, l) ∈ gs := by
  intro gs
  induction gs with
  | nil => intro k l h; simp [List.lookup] at h
  | cons g rest ih =>
    intro k l h
    rw [List.lookup_cons] at h
    cases hb : k == g.1 with
    | true =>
      rw [hb] at h
      injection h with h
      have hg : k = g.1 := beq_iff_eq.mp hb
      subst h
      rw [hg]
      exact List.mem_cons_self g rest
    | false =>
      rw [hb] at h
      exact List.mem_cons_of_mem g (ih h)

/-- Under distinct keys, each entry is recovered by looking its key up. -/
theorem lookup_of_mem_nodup {β : Type} : ∀ {gs : List (String × β)} {g : String × β},
    (gs.map Prod.fst).Nodup → g ∈ gs → gs.lookup g.1 = some g.2 := by
  intro gs
  induction gs with
  | nil => intro g _ hmem; simp at hmem
  | cons x rest ih =>
    intro g hnd hmem
    rw [List.map_cons, List.nodup_cons] at hnd
    rcases List.mem_cons.mp hmem with h | h
    · subst h
      rw [List.lookup_cons, show (g.1 == g.1) = true from beq_iff_eq.mpr rfl]
    · have hne : ¬ (g.1 = x.1) := by
        intro hc
        exact hnd.1 (hc ▸ List.mem_map_of_mem Prod.fst h)
      rw [List.lookup_cons, show (g.1 == x.1) = false from beq_eq_false_iff_ne.mpr hne]
      exact ih hnd.2 h

/-- Distinct first components make the pair determined by its first
component. -/
theorem nodup_fst_inj {β : Type} : ∀ {l : List (String × β)} {p q : String × β},
    (l.map Prod.fst).Nodup → p ∈ l → q ∈ l → p.1 = q.1 → p = q := by
  intro l
  induction l with
  | nil => intro p q _ hp; simp at hp
  | cons x rest ih =>
    intro p q hnd hp hq heq
    rw [List.map_cons, List.nodup_cons] at hnd
    rcases List.mem_cons.mp hp with hp | hp <;> rcases List.mem_cons.mp hq with hq | hq
    · rw [hp, hq]
    · exact absurd (heq ▸ List.mem_map_of_mem Prod.fst hq) (hp ▸ hnd.1)
    · exact absurd (heq ▸ List.mem_map_of_mem Prod.fst hp) (hq ▸ hnd.1)
    · exact ih hnd.2 hp hq heq

/-- The grouping fold of group_by_artifact: looking up key k yields the
accumulator's members followed by the ids of the processed rows whose
grouping key is k, in processing order. -/
theorem groupFold_lookup : ∀ (rows : List (String × ConsolidateArtifacts.InvRow))
    (gs : List (String × List String)) (k : String),
    (rows.foldl (fun gs p => insertGroup gs (ConsolidateArtifacts.groupKey p.1 p.2) p.1)
      gs).lookup k =
      if rows.filter (fun p => ConsolidateArtifacts.groupKey p.1 p.2 == k) = [] then
        gs.lookup k
      else
        some (((gs.lookup k).getD []) ++
          (rows.filter (fun p => ConsolidateArtifacts.groupKey p.1 p.2 == k)).map Prod.fst) := by
  intro rows
  induction rows with
  | nil => intro gs k; simp
  | cons p rest ih =>
    intro gs k
    rw [List.foldl_cons,
      ih (insertGroup gs (ConsolidateArtifacts.groupKey p.1 p.2) p.1) k,
      insertGroup_lookup, List.filter_cons]
    by_cases hk : (ConsolidateArtifacts.groupKey p.1 p.2 == k) = true
    · have hkeq : k = ConsolidateArtifacts.groupKey p.1 p.2 := (beq_iff_eq.mp hk).symm
      rw [if_pos hk, if_pos hkeq]
      by_cases hrest :
          rest.filter (fun q => ConsolidateArtifacts.groupKey q.1 q.2 == k) = []
      · rw [if_pos hrest, if_neg (List.cons_ne_nil p _), hrest]
        simp
        rw [hkeq]
      · rw [if_neg hrest, if_neg (List.cons_ne_nil p _)]
        simp [List.append_assoc]
        rw [hkeq]
    · have hkne : ¬ (k = ConsolidateArtifacts.groupKey p.1 p.2) :=
        fun hc => hk (beq_iff_eq.mpr hc.symm)
      rw [if_neg hk, if_neg hkne]

/-- The grouping fold keeps keys pairwise distinct. -/
theorem groupFold_nodup : ∀ (rows : List (String × ConsolidateArtifacts.InvRow))
    (gs : List (String × List String)),
    (gs.map Prod.fst).Nodup →
    (((rows.foldl (fun gs p => insertGroup gs (ConsolidateArtifacts.groupKey p.1 p.2) p.1)
      gs)).map Prod.fst).Nodup := by
  intro rows
  induction rows with
  | nil => intro gs h; exact h
  | cons p rest ih =>
    intro gs h
    rw [List.foldl_cons]
    exact ih _ (insertGroup_nodup h)

/-- Looking up in an association list whose values were mapped equals
mapping the original lookup. -/
theorem lookup_map_val {β γ : Type} (f : β → γ) : ∀ (gs : List (String × β)) (k : String),
    (gs.map (fun g => (g.1, f g.2))).lookup k = (gs.lookup k).map f := by
  intro gs
  induction gs with
  | nil => intro k; simp [List.lookup]
  | cons g rest ih =>
    intro k
    rw [List.map_cons, List.lookup_cons, List.lookup_cons]
    cases hb : k == g.1 with
    | true => rfl
    | false => exact ih k

/-- When exactly one element satisfies the predicate (under distinct first
components), filtering returns that single element. -/
theorem filter_eq_single {β : Type} (pred : String × β → Bool) :
    ∀ (l : List (String × β)) (p : String × β),
    (l.map Prod.fst).Nodup → p ∈ l → pred p = true →
    (∀ q ∈ l, pred q = true → q = p) → l.filter pred = [p] := by
  intro l
  induction l with
  | nil => intro p _ hp; simp at hp
  | cons x t ih =>
    intro p hnd hp hpred hall
    rw [List.map_cons, List.nodup_cons] at hnd
    rw [List.filter_cons]
    by_cases hx : pred x = true
    · rw [if_pos hx]
      have hxp : x = p := hall x (List.mem_cons_self x t) hx
      subst hxp
      have hemp : t.filter pred = [] := by
        rw [List.filter_eq_nil_iff]
        intro q hq hqp
        have hqx : q = x := hall q (List.mem_cons_of_mem x hq) hqp
        exact hnd.1 (hqx ▸ List.mem_map_of_mem Prod.fst hq)
      rw [hemp]
    · rw [if_neg hx]
      have hpx : ¬ (p = x) := fun hc => hx (hc ▸ hpred)
      have hpt : p ∈ t := by
        rcases List.mem_cons.mp hp with h | h
        · exact absurd h hpx
        · exact h
      exact ih p hnd.2 hpt hpred (fun q hq hqp => hall q (List.mem_cons_of_mem x hq) hqp)

open ConsolidateArtifacts in
/-- C10 (amended): with pairwise-distinct image ids, group_by_artifact
drops no record: group keys are pairwise distinct, a record's id appears
in a group exactly when that group's key is the record's grouping key
(its artifact_group_id, or its own id when that field is empty), and such
a group always exists — so every record appears in exactly one group.  A
record with an empty artifact_group_id is ALONE under its own id only
when no other record's grouping key collides with that id; then the group
keyed by the id has the record as sole member. -/
theorem C10_amended (inventory : List (String × InvRow))
    (hnodup : (inventory.map Prod.fst).Nodup) :
    ((group_by_artifact inventory).map Prod.fst).Nodup ∧
    (∀ p ∈ inventory, ∀ g ∈ group_by_artifact inventory,
      (p.1 ∈ g.2 ↔ g.1 = groupKey p.1 p.2)) ∧
    (∀ p ∈ inventory, ∃ g ∈ group_by_artifact inventory, g.1 = groupKey p.1 p.2) ∧
    (∀ p ∈ inventory, p.2.artifact_group_id = "" →
      (∀ q ∈ inventory, groupKey q.1 q.2 = p.1 → q = p) →
      (group_by_artifact inventory).lookup p.1 = some [p.1]) := by
  have hFnodup : ((inventory.foldl
      (fun gs p => insertGroup gs (groupKey p.1 p.2) p.1) []).map Prod.fst).Nodup :=
    groupFold_nodup inventory [] (by simp)
  have hkeys : (group_by_artifact inventory).map Prod.fst =
      (inventory.foldl (fun gs p => insertGroup gs (groupKey p.1 p.2) p.1) []).map
        Prod.fst := by
    unfold group_by_artifact
    rw [List.map_map]
    rfl
  have hlookup : ∀ k, (inventory.foldl
      (fun gs p => insertGroup gs (groupKey p.1 p.2) p.1) []).lookup k =
      if inventory.filter (fun p => groupKey p.1 p.2 == k) = [] then none
      else some ((inventory.filter (fun p => groupKey p.1 p.2 == k)).map Prod.fst) := by
    intro k
    rw [groupFold_lookup]
    by_cases h : inventory.filter (fun p => groupKey p.1 p.2 == k) = []
    · rw [if_pos h, if_pos h]
      rfl
    · rw [if_neg h, if_neg h]
      rfl
  refine ⟨hkeys ▸ hFnodup, ?_, ?_, ?_⟩
  · intro p hp g hg
    unfold group_by_artifact at hg
    rw [List.mem_map] at hg
    obtain ⟨g0, hg0, hgg⟩ := hg
    have hl := lookup_of_mem_nodup hFnodup hg0
    rw [hlookup g0.1] at hl
    by_cases hf : inventory.filter (fun q => groupKey q.1 q.2 == g0.1) = []
    · rw [if_pos hf] at hl
      exact absurd hl (by simp)
    · rw [if_neg hf] at hl
      injection hl with hl
      rw [← hgg]
      constructor
      · intro hmem
        have hmem2 : p.1 ∈ g0.2 :=
          ((List.perm_insertionSort _ g0.2).mem_iff).mp hmem
        rw [← hl] at hmem2
        rw [List.mem_map] at hmem2
        obtain ⟨q, hq, hq1⟩ := hmem2
        rw [List.mem_filter] at hq
        have hqp : q = p := nodup_fst_inj hnodup hq.1 hp hq1
        have hqk := beq_iff_eq.mp hq.2
        rw [hqp] at hqk
        exact hqk.symm
      · intro hkey
        have hpf : p ∈ inventory.filter (fun q => groupKey q.1 q.2 == g0.1) := by
          rw [List.mem_filter]
          exact ⟨hp, beq_iff_eq.mpr hkey.symm⟩
        have hmem : p.1 ∈ (inventory.filter
            (fun q => groupKey q.1 q.2 == g0.1)).map Prod.fst :=
          List.mem_map_of_mem Prod.fst hpf
        rw [hl] at hmem
        exact ((List.perm_insertionSort _ g0.2).mem_iff).mpr hmem
  · intro p hp
    have hpf : p ∈ inventory.filter (fun q => groupKey q.1 q.2 == groupKey p.1 p.2) := by
      rw [List.mem_filter]
      exact ⟨hp, beq_iff_eq.mpr rfl⟩
    have hne : inventory.filter (fun q => groupKey q.1 q.2 == groupKey p.1 p.2) ≠ [] :=
      List.ne_nil_of_mem hpf
    have hl := hlookup (groupKey p.1 p.2)
    rw [if_neg hne] at hl
    have hmem := lookup_some_mem hl
    refine ⟨(groupKey p.1 p.2, List.insertionSort
      (fun x y => memberLE inventory x y = true)
      ((inventory.filter (fun q => groupKey q.1 q.2 == groupKey p.1 p.2)).map Prod.fst)),
      ?_, rfl⟩
    unfold group_by_artifact
    rw [List.mem_map]
    exact ⟨_, hmem, rfl⟩
  · intro p hp hag hcoll
    have hkeyp : groupKey p.1 p.2 = p.1 := by
      unfold groupKey
      rw [if_pos hag]
    have hfilter : inventory.filter (fun q => groupKey q.1 q.2 == p.1) = [p] := by
      apply filter_eq_single _ inventory p hnodup hp
      · exact beq_iff_eq.mpr hkeyp
      · intro q hq hqp
        exact hcoll q hq (beq_iff_eq.mp hqp)
    unfold group_by_artifact
    rw [lookup_map_val]
    rw [hlookup p.1, if_neg (by rw [hfilter]; exact List.cons_ne_nil p []), hfilter]
    simp [List.insertionSort, List.orderedInsert]

/-- C10 counterexample: record x has an empty artifact_group_id, so it is
keyed under its own id x, but record y's artifact_group_id is also x, so
the group keyed x holds both ids — the record is not alone in it. -/
theorem C10_counterexample :
    (ConsolidateArtifacts.group_by_artifact
      [("x", ⟨(""), 0⟩), ("y", ⟨("x"), 0⟩)]) = [("x", ["x", "y"])] ∧
    ¬ ((ConsolidateArtifacts.group_by_artifact
      [("x", ⟨(""), 0⟩), ("y", ⟨("x"), 0⟩)]).lookup ("x") = some ["x"]) := by
  refine ⟨by decide, by decide⟩

open ConsolidateArtifacts in
/-- C10 witness: the amended grouping facts on a two-record inventory
with one assigned group and one empty artifact_group_id. -/
theorem C10_amended_witness :
    (([("a", (⟨("G1"), 1⟩ : InvRow)), ("b", ⟨("") , 2⟩)].map Prod.fst).Nodup) ∧
    (((group_by_artifact [("a", ⟨("G1"), 1⟩), ("b", ⟨(""), 2⟩)]).map Prod.fst).Nodup ∧
    (∀ p ∈ [("a", (⟨("G1"), 1⟩ : InvRow)), ("b", ⟨(""), 2⟩)],
      ∀ g ∈ group_by_artifact [("a", ⟨("G1"), 1⟩), ("b", ⟨(""), 2⟩)],
      (p.1 ∈ g.2 ↔ g.1 = groupKey p.1 p.2)) ∧
    (∀ p ∈ [("a", (⟨("G1"), 1⟩ : InvRow)), ("b", ⟨(""), 2⟩)],
      ∃ g ∈ group_by_artifact [("a", ⟨("G1"), 1⟩), ("b", ⟨(""), 2⟩)],
      g.1 = groupKey p.1 p.2) ∧
    (∀ p ∈ [("a", (⟨("G1"), 1⟩ : InvRow)), ("b", ⟨(""), 2⟩)],
      p.2.artifact_group_id = "" →
      (∀ q ∈ [("a", (⟨("G1"), 1⟩ : InvRow)), ("b", ⟨(""), 2⟩)],
        groupKey q.1 q.2 = p.1 → q = p) →
      (group_by_artifact [("a", ⟨("G1"), 1⟩), ("b", ⟨(""), 2⟩)]).lookup p.1 =
        some [p.1])) :=
  ⟨by decide, C10_amended [("a", ⟨("G1"), 1⟩), ("b", ⟨(""), 2⟩)] (by decide)⟩

end ConcreteEvaluation
